import Mathlib

/-!
Verification of the Opacus message-plane core (opacus-rust) against its
natural-language specification.

The Rust sources embedded here (shallowly, as pure Lean functions with
explicit state passing) are:
  - src/crypto/security.rs  (SecurityManager: nonces, HMAC/signature framing)
  - src/relay.rs            (OpacusRelayServer: per-frame connection handling,
                             routing, offline queue)
  - src/proto.rs, src/types.rs (CBOR frame codec, frame record)

Modelling conventions, stated once:
  - Machine integers are Nat. Where u64/u128 overflow or truncation matters,
    we write the reduction explicitly (x % 2^64).  Rust release-build wrapping
    subtraction a.wrapping_sub b on u64 is (a + 2^64 - b) % 2^64; debug-build
    panics on over/underflow are modelled by a separate "checked" variant
    returning Option.
  - Byte strings are List (Fin 256).  Rust String values are Lean String.
  - Clock reads (SystemTime::now) and randomness become explicit parameters.
    A function that reads the clock more than once in a single call is given
    a single "now" parameter (the reads are microseconds apart; nothing in
    the claims distinguishes them).
  - External cryptographic libraries (ed25519-dalek, x25519-dalek, hkdf,
    hmac) are not part of this repository; their functions are fields of a
    CryptoPrims record over which the theorems quantify, with the standard
    correctness properties of the real primitives as hypotheses.  The hex
    crate and the serde_cbor / serde_json wire formats are modelled
    concretely.
-/

namespace Opacus

/-- Bytes, as used for key material, payloads and wire encodings. -/
abbrev Byte := Fin 256

/-! ## Hex encoding (the hex crate: hex::encode, lowercase, no prefix) -/

/-- Lowercase hex digit for a value below 16 (hex crate alphabet). -/
def hexDigit (n : Nat) : Char :=
  if n < 10 then Char.ofNat (48 + n) else Char.ofNat (87 + n)

/-- Two lowercase hex characters of one byte, per hex::encode. -/
def byteHex (b : Byte) : List Char :=
  [hexDigit (b.val / 16), hexDigit (b.val % 16)]

/-- hex::encode: lowercase hex string of a byte slice. -/
def hexEncode (bs : List Byte) : String :=
  String.mk ((bs.map byteHex).flatten)

theorem hexDigit_inj : ∀ a : Nat, a < 16 → ∀ b : Nat, b < 16 → hexDigit a = hexDigit b → a = b := by
  decide

theorem byteHex_length (b : Byte) : (byteHex b).length = 2 := rfl

theorem byteHex_inj : Function.Injective byteHex := by
  intro a b h
  simp only [byteHex, List.cons.injEq, and_true] at h
  have h1 : a.val / 16 = b.val / 16 :=
    hexDigit_inj _ (Nat.div_lt_of_lt_mul (by omega)) _ (Nat.div_lt_of_lt_mul (by omega)) h.1
  have h2 : a.val % 16 = b.val % 16 :=
    hexDigit_inj _ (Nat.mod_lt _ (by omega)) _ (Nat.mod_lt _ (by omega)) h.2
  have : a.val = b.val := by omega
  exact Fin.ext this

/-- Joining blocks of a fixed positive width is injective when the block map is. -/
theorem join_map_fixed_inj {α β : Type} (f : α → List β) (k : Nat) (hk : 0 < k)
    (hlen : ∀ a, (f a).length = k) (hf : Function.Injective f) :
    ∀ l1 l2 : List α, (l1.map f).flatten = (l2.map f).flatten → l1 = l2 := by
  intro l1
  induction l1 with
  | nil =>
    intro l2 h
    cases l2 with
    | nil => rfl
    | cons b t =>
      exfalso
      simp only [List.map_nil, List.flatten_nil, List.map_cons, List.flatten_cons] at h
      have hb : f b = [] := (List.append_eq_nil.mp h.symm).1
      have := hlen b
      rw [hb] at this
      simp at this
      omega
  | cons a t ih =>
    intro l2 h
    cases l2 with
    | nil =>
      exfalso
      simp only [List.map_nil, List.flatten_nil, List.map_cons, List.flatten_cons] at h
      have hb : f a = [] := (List.append_eq_nil.mp h).1
      have := hlen a
      rw [hb] at this
      simp at this
      omega
    | cons b t2 =>
      simp only [List.map_cons, List.flatten_cons] at h
      have hl : (f a).length = (f b).length := by rw [hlen a, hlen b]
      obtain ⟨h1, h2⟩ := List.append_inj h hl
      have := hf h1
      rw [this, ih t2 h2]

theorem hexEncode_inj : Function.Injective hexEncode := by
  intro a b h
  have hd : ((a.map byteHex).flatten) = ((b.map byteHex).flatten) := congrArg String.data h
  exact join_map_fixed_inj byteHex 2 (by omega) byteHex_length byteHex_inj a b hd

/-! ## Decimal rendering and parsing (Rust Display for unsigned ints, u128 FromStr) -/

/-- Decimal digit characters of a Nat, most significant first (the output of
Rust format with an unsigned integer). -/
def decChars (n : Nat) : List Char :=
  if n = 0 then [Char.ofNat 48]
  else ((Nat.digits 10 n).map (fun d => Char.ofNat (48 + d))).reverse

/-- Decimal string of a Nat. -/
def decStr (n : Nat) : String := String.mk (decChars n)

/-- Is this character an ASCII decimal digit. -/
def isDigitCh (c : Char) : Bool := 48 ≤ c.toNat && c.toNat ≤ 57

/-- Rust str::parse::<u128>: an optional leading plus sign, then one or more
decimal digits, value below 2^128 (larger values overflow to Err). -/
def parseU128 (cs : List Char) : Option Nat :=
  let ds := match cs with
    | c :: rest => if c = Char.ofNat 43 then rest else cs
    | [] => cs
  if ds = [] then none
  else if ds.all isDigitCh then
    let v := ds.foldl (fun a c => 10 * a + (c.toNat - 48)) 0
    if v < 2 ^ 128 then some v else none
  else none

theorem digitChar_toNat : ∀ d : Nat, d < 10 → (Char.ofNat (48 + d)).toNat = 48 + d := by
  decide

theorem decChars_digits (n : Nat) : ∀ c ∈ decChars n, 48 ≤ c.toNat ∧ c.toNat ≤ 57 := by
  intro c hc
  unfold decChars at hc
  by_cases h0 : n = 0
  · simp [h0] at hc
    subst hc; decide
  · simp only [h0, if_false, List.mem_reverse, List.mem_map] at hc
    obtain ⟨d, hd, rfl⟩ := hc
    have hlt : d < 10 := Nat.digits_lt_base (by omega) hd
    rw [digitChar_toNat d hlt]
    omega

theorem decChars_ne_nil (n : Nat) : decChars n ≠ [] := by
  unfold decChars
  by_cases h0 : n = 0
  · simp [h0]
  · simp only [h0, if_false, ne_eq, List.reverse_eq_nil_iff, List.map_eq_nil_iff]
    exact Nat.digits_ne_nil_iff_ne_zero.mpr h0

theorem decChars_foldl (n : Nat) :
    (decChars n).foldl (fun a c => 10 * a + (c.toNat - 48)) 0 = n := by
  unfold decChars
  by_cases h0 : n = 0
  · simp [h0]
  · simp only [h0, if_false]
    rw [List.foldl_reverse]
    have : ∀ L : List Nat, (∀ d ∈ L, d < 10) →
        (L.map (fun d => Char.ofNat (48 + d))).foldr
          (fun c a => 10 * a + (c.toNat - 48)) 0 = Nat.ofDigits 10 L := by
      intro L
      induction L with
      | nil => intro _; simp [Nat.ofDigits]
      | cons d L ih =>
        intro hL
        have hd : d < 10 := hL d (List.mem_cons_self d L)
        simp only [List.map_cons, List.foldr_cons, ih (fun x hx => hL x (List.mem_cons_of_mem d hx)),
          digitChar_toNat d hd, Nat.ofDigits_cons]
        omega
    rw [this (Nat.digits 10 n) (fun d hd => Nat.digits_lt_base (by omega) hd)]
    exact Nat.ofDigits_digits 10 n

theorem parseU128_decChars (n : Nat) (h : n < 2 ^ 128) :
    parseU128 (decChars n) = some n := by
  unfold parseU128
  have hne := decChars_ne_nil n
  have hdig := decChars_digits n
  have hplus : (match decChars n with
      | c :: rest => if c = Char.ofNat 43 then rest else decChars n
      | [] => decChars n) = decChars n := by
    cases hd : decChars n with
    | nil => rfl
    | cons c rest =>
      have hcd := hdig c (by rw [hd]; exact List.mem_cons_self c rest)
      have : ¬ (c = Char.ofNat 43) := by
        intro hcc
        rw [hcc] at hcd
        revert hcd; decide
      simp [this]
  simp only [hplus, hne, if_false]
  have hall : (decChars n).all isDigitCh = true := by
    rw [List.all_eq_true]
    intro c hc
    have := hdig c hc
    simp [isDigitCh]
    omega
  simp only [hall, if_true, decChars_foldl n, h, if_pos]

theorem decChars_inj (m n : Nat) (hm : m < 2 ^ 128) (hn : n < 2 ^ 128)
    (h : decChars m = decChars n) : m = n := by
  have := parseU128_decChars m hm
  rw [h, parseU128_decChars n hn] at this
  exact (Option.some.injEq _ _).mp this.symm

theorem decStr_inj (m n : Nat) (hm : m < 2 ^ 128) (hn : n < 2 ^ 128)
    (h : decStr m = decStr n) : m = n :=
  decChars_inj m n hm hn (congrArg String.data h)

/-! ## Splitting on a character (Rust str::split with a char pattern) -/

/-- Rust str::split(sep): all substrings separated by sep, empty parts kept;
an input with n separators yields n+1 parts. -/
def splitChar (sep : Char) : List Char → List (List Char)
  | [] => [[]]
  | c :: rest =>
    if c = sep then [] :: splitChar sep rest
    else
      match splitChar sep rest with
      | [] => [[c]]
      | p :: ps => (c :: p) :: ps

theorem splitChar_no_sep (sep : Char) (l : List Char) (h : sep ∉ l) :
    splitChar sep l = [l] := by
  induction l with
  | nil => rfl
  | cons c rest ih =>
    have hcs : ¬ (c = sep) := fun hc => h (hc ▸ List.mem_cons_self c rest)
    have hrest : sep ∉ rest := fun hr => h (List.mem_cons_of_mem c hr)
    simp only [splitChar, hcs, if_false, ih hrest]

theorem splitChar_pair (sep : Char) (a b : List Char) (ha : sep ∉ a) (hb : sep ∉ b) :
    splitChar sep (a ++ sep :: b) = [a, b] := by
  induction a with
  | nil => simp [splitChar, splitChar_no_sep sep b hb]
  | cons c rest ih =>
    have hcs : ¬ (c = sep) := fun hc => ha (hc ▸ List.mem_cons_self c rest)
    have hrest : sep ∉ rest := fun hr => ha (List.mem_cons_of_mem c hr)
    simp only [List.cons_append, splitChar, hcs, if_false]
    rw [show rest.append (sep :: b) = rest ++ sep :: b from rfl, ih hrest]

/-! ## Frame model (src/types.rs) -/

/-- FrameType from src/types.rs. -/
inductive FrameType where
  | connect
  | msg
  | ping
  | ack
  | stream
  | payment
deriving DecidableEq, Repr

/-- Debug rendering of a FrameType (the Rust derive(Debug) output used in the
canonical HMAC and signing inputs). -/
def FrameType.debugStr : FrameType → String
  | .connect => "Connect"
  | .msg => "Msg"
  | .ping => "Ping"
  | .ack => "Ack"
  | .stream => "Stream"
  | .payment => "Payment"

/-- Wire name of a FrameType (serde rename_all lowercase, used by the codec). -/
def FrameType.wireStr : FrameType → String
  | .connect => "connect"
  | .msg => "msg"
  | .ping => "ping"
  | .ack => "ack"
  | .stream => "stream"
  | .payment => "payment"

/-- OpacusFrame from src/types.rs.  Field from is spelled from_ because from
is reserved in Lean.  version, seq and ts are u8/u64 values carried as Nat. -/
structure OpacusFrame where
  version : Nat
  frame_type : FrameType
  from_ : String
  to_ : String
  seq : Nat
  ts : Nat
  nonce : String
  payload : List Byte
  hmac : Option String
  sig : Option (List Byte)
deriving DecidableEq, Repr

/-- AgentIdentity from src/types.rs (key fields as 32-byte lists). -/
structure AgentIdentity where
  id : String
  ed_pub : List Byte
  ed_priv : List Byte
  x_pub : List Byte
  x_priv : List Byte
  address : String
  chain_id : Nat

/-! ## Security manager (src/crypto/security.rs)

The external crypto crates (x25519-dalek diffie_hellman, hkdf expand,
hmac-sha256, ed25519-dalek sign/verify) are not part of this repository;
they enter the model as the fields of CryptoPrims.  Rust passes message
bytes (str::as_bytes, an injective encoding); the abstract primitives here
take the String directly. -/

/-- Abstract interface of the external crypto crates used by security.rs. -/
structure CryptoPrims where
  dh : List Byte → List Byte → List Byte
  hkdfExpand : List Byte → List Byte → List Byte
  hmacSha256 : List Byte → String → List Byte
  edSign : List Byte → String → List Byte
  edVerify : List Byte → String → List Byte → Bool

/-- ASCII bytes of a byte-string literal such as b"opacus-session". -/
def asciiBytes (s : String) : List Byte :=
  s.data.map (fun c => Fin.ofNat' 256 c.toNat)

/-- The HKDF info label b"opacus-session" used by create/verify_auth_frame. -/
def infoLabel : List Byte := asciiBytes "opacus-session"

/-- SecurityManager state: the nonce window (HashMap String -> u64, modelled
as an association list with distinct keys) and the last_nonce counter. -/
structure SecurityManager where
  nonce_window : List (String × Nat)
  last_nonce : Nat
deriving DecidableEq, Repr

namespace SecurityManager

/-- SecurityManager::new(). -/
def new : SecurityManager := { nonce_window := [], last_nonce := 0 }

/-- SecurityManager::derive_shared_secret: raw X25519 DH. -/
def derive_shared_secret (C : CryptoPrims) (my_priv peer_pub : List Byte) : List Byte :=
  C.dh my_priv peer_pub

/-- SecurityManager::derive_session_key: HKDF-SHA256, no salt, expand to 32 bytes. -/
def derive_session_key (C : CryptoPrims) (shared info : List Byte) : List Byte :=
  C.hkdfExpand shared info

/-- SecurityManager::generate_hmac: hex-encoded HMAC-SHA256 over the UTF-8
bytes of data. -/
def generate_hmac (C : CryptoPrims) (key : List Byte) (data : String) : String :=
  hexEncode (C.hmacSha256 key data)

/-- SecurityManager::verify_hmac: string equality of recomputed and expected. -/
def verify_hmac (C : CryptoPrims) (key : List Byte) (data : String) (expected : String) : Bool :=
  generate_hmac C key data == expected

/-- char {:016x}: 16 zero-padded lowercase hex characters of a u64. -/
def hex16 (r : Nat) : List Char :=
  (List.range 16).map (fun i => hexDigit (r % 2 ^ 64 / 16 ^ (15 - i) % 16))

/-- SecurityManager::generate_nonce: format ts dash 016x-rand, with the clock
reading ts and the random u64 as explicit parameters. -/
def generate_nonce (now rand : Nat) : String :=
  String.mk (decChars now ++ Char.ofNat 45 :: hex16 rand)

/-- u64 wrapping subtraction (Rust release-build a - b on u64), for a b < 2^64. -/
def wsub64 (a b : Nat) : Nat := (a + 2 ^ 64 - b) % 2 ^ 64

/-- HashMap::contains_key on the nonce window. -/
def containsKey (w : List (String × Nat)) (k : String) : Bool :=
  w.any (fun e => e.1 == k)

/-- SecurityManager::cleanup_nonces: retain entries with now - ts < max_age
(u64 arithmetic; the subtraction wraps in release builds, see the checked
variant below for the debug-build panic). -/
def cleanup_nonces (w : List (String × Nat)) (max_age now64 : Nat) : List (String × Nat) :=
  w.filter (fun e => wsub64 now64 e.2 < max_age)

/-- SecurityManager::validate_nonce.  now is the u128 millisecond clock
reading; the stored timestamp and the cleanup clock are its u64 cast.
Returns the bool result and the updated manager. -/
def validate_nonce (sm : SecurityManager) (nonce : String) (max_age_ms : Nat) (now : Nat) :
    Bool × SecurityManager :=
  match splitChar (Char.ofNat 45) nonce.data with
  | [p0, _p1] =>
    match parseU128 p0 with
    | none => (false, sm)
    | some ts =>
      if now - ts > max_age_ms then (false, sm)
      else if containsKey sm.nonce_window nonce then (false, sm)
      else
        let w1 := (nonce, now % 2 ^ 64) :: sm.nonce_window
        let w2 := cleanup_nonces w1 (max_age_ms * 2 % 2 ^ 64) (now % 2 ^ 64)
        (true, { sm with nonce_window := w2 })
  | _ => (false, sm)

/-- Debug-build (overflow-checked) semantics of validate_nonce: none models a
panic, from the u64 multiplication max_age_ms * 2 at the cleanup call site or
from a u64 subtraction now - ts underflowing inside cleanup_nonces. -/
def validate_nonce_checked (sm : SecurityManager) (nonce : String) (max_age_ms : Nat) (now : Nat) :
    Option (Bool × SecurityManager) :=
  match splitChar (Char.ofNat 45) nonce.data with
  | [p0, _p1] =>
    match parseU128 p0 with
    | none => some (false, sm)
    | some ts =>
      if now - ts > max_age_ms then some (false, sm)
      else if containsKey sm.nonce_window nonce then some (false, sm)
      else
        let w1 := (nonce, now % 2 ^ 64) :: sm.nonce_window
        if max_age_ms * 2 < 2 ^ 64 then
          if w1.all (fun e => e.2 ≤ now % 2 ^ 64) then
            some (true, { sm with
              nonce_window := w1.filter (fun e => now % 2 ^ 64 - e.2 < max_age_ms * 2) })
          else none
        else none
  | _ => some (false, sm)

/-- SecurityManager::sign (ed25519-dalek, abstract). -/
def sign (C : CryptoPrims) (priv_key : List Byte) (message : String) : List Byte :=
  C.edSign priv_key message

/-- SecurityManager::verify (ed25519-dalek, abstract; false on any failure). -/
def verify (C : CryptoPrims) (pub_key : List Byte) (message : String) (sig : List Byte) : Bool :=
  C.edVerify pub_key message sig

/-- Canonical HMAC input: Type|from|to|seq|ts|nonce|hex(payload), with the
debug-capitalized type name. -/
def hmacDataStr (t : FrameType) (fr dst : String) (seq ts : Nat) (nonce : String)
    (payloadHex : String) : String :=
  t.debugStr ++ "|" ++ fr ++ "|" ++ dst ++ "|" ++ decStr seq ++ "|" ++ decStr ts ++ "|" ++
    nonce ++ "|" ++ payloadHex

/-- Canonical signing input: version|Type|from|to|seq|ts|nonce|hmac. -/
def signDataStr (v : Nat) (t : FrameType) (fr dst : String) (seq ts : Nat) (nonce : String)
    (hmac : String) : String :=
  decStr v ++ "|" ++ t.debugStr ++ "|" ++ fr ++ "|" ++ dst ++ "|" ++ decStr seq ++ "|" ++
    decStr ts ++ "|" ++ nonce ++ "|" ++ hmac

/-- SecurityManager::create_auth_frame.  now (millisecond clock) and rand
(the random u64 of generate_nonce) are explicit; last_nonce increments with
u64 wrap. -/
def create_auth_frame (C : CryptoPrims) (sm : SecurityManager) (identity : AgentIdentity)
    (peer_x_pub : List Byte) (frame_type : FrameType) (dst : String) (payload : List Byte)
    (now rand : Nat) : OpacusFrame × SecurityManager :=
  let nonce := generate_nonce now rand
  let ts := now % 2 ^ 64
  let last := (sm.last_nonce + 1) % 2 ^ 64
  let seq := last
  let shared := derive_shared_secret C identity.x_priv peer_x_pub
  let session_key := derive_session_key C shared infoLabel
  let hmac_data := hmacDataStr frame_type identity.id dst seq ts nonce (hexEncode payload)
  let hmac := generate_hmac C session_key hmac_data
  let frame : OpacusFrame :=
    { version := 1, frame_type := frame_type, from_ := identity.id, to_ := dst, seq := seq,
      ts := ts, nonce := nonce, payload := payload, hmac := some hmac, sig := none }
  let sign_data := signDataStr frame.version frame.frame_type frame.from_ frame.to_
    frame.seq frame.ts frame.nonce hmac
  ({ frame with sig := some (sign C identity.ed_priv sign_data) },
   { sm with last_nonce := last })

/-- SecurityManager::verify_auth_frame: nonce window check (60 000 ms), then
signature over the canonical signing input, then HMAC with the session key
from DH(my_x_priv, sender_x_pub).  Returns the result and the updated
manager (the nonce check mutates the window). -/
def verify_auth_frame (C : CryptoPrims) (sm : SecurityManager) (frame : OpacusFrame)
    (sender_ed_pub my_x_priv sender_x_pub : List Byte) (now : Nat) :
    Except String Unit × SecurityManager :=
  let r := validate_nonce sm frame.nonce 60000 now
  if r.1 = false then (.error "Invalid or replayed nonce", r.2)
  else
    match frame.hmac with
    | none => (.error "Missing HMAC", r.2)
    | some hmac =>
      let sign_data := signDataStr frame.version frame.frame_type frame.from_ frame.to_
        frame.seq frame.ts frame.nonce hmac
      match frame.sig with
      | none => (.error "Missing signature", r.2)
      | some sig =>
        if verify C sender_ed_pub sign_data sig = false then (.error "Invalid signature", r.2)
        else
          let shared := derive_shared_secret C my_x_priv sender_x_pub
          let session_key := derive_session_key C shared infoLabel
          let hmac_data := hmacDataStr frame.frame_type frame.from_ frame.to_ frame.seq
            frame.ts frame.nonce (hexEncode frame.payload)
          if verify_hmac C session_key hmac_data hmac = false then (.error "HMAC mismatch", r.2)
          else (.ok (), r.2)

end SecurityManager

/-! ## Lemmas about validate_nonce -/

namespace SecurityManager

theorem wsub64_self (a : Nat) : wsub64 a a = 0 := by
  unfold wsub64
  omega

theorem wsub64_of_le (a b : Nat) (hb : b ≤ a) (ha : a < 2 ^ 64) : wsub64 a b = a - b := by
  unfold wsub64
  have h1 : a + 2 ^ 64 - b = (a - b) + 2 ^ 64 := by omega
  rw [h1, Nat.add_mod_right, Nat.mod_eq_of_lt (by omega)]

/-- Branch characterization of validate_nonce: it either rejects leaving the
manager unchanged, or accepts a nonce not in the window and updates the
window by the insert-then-sweep. -/
theorem validate_nonce_cases (sm : SecurityManager) (n : String) (M now : Nat) :
    validate_nonce sm n M now = (false, sm) ∨
    (containsKey sm.nonce_window n = false ∧
      validate_nonce sm n M now = (true, { sm with
        nonce_window := cleanup_nonces ((n, now % 2 ^ 64) :: sm.nonce_window)
          (M * 2 % 2 ^ 64) (now % 2 ^ 64) })) := by
  unfold validate_nonce
  split
  · split
    · left; rfl
    · split
      · left; rfl
      · split
        · left; rfl
        · rename_i hc
          right
          exact ⟨by simpa using hc, rfl⟩
  · left; rfl

theorem validate_nonce_contains_false (sm : SecurityManager) (n : String) (M now : Nat)
    (h : containsKey sm.nonce_window n = true) :
    (validate_nonce sm n M now).1 = false := by
  rcases validate_nonce_cases sm n M now with hc | ⟨hk, _⟩
  · rw [hc]
  · rw [hk] at h; exact absurd h (by simp)

theorem validate_nonce_false_unchanged (sm : SecurityManager) (n : String) (M now : Nat)
    (h : (validate_nonce sm n M now).1 = false) :
    (validate_nonce sm n M now).2 = sm := by
  rcases validate_nonce_cases sm n M now with hc | ⟨_, hc⟩
  · rw [hc]
  · rw [hc] at h; exact absurd h (by simp)

theorem validate_nonce_true_window (sm : SecurityManager) (n : String) (M now : Nat)
    (h : (validate_nonce sm n M now).1 = true) :
    containsKey sm.nonce_window n = false ∧
    (validate_nonce sm n M now).2.nonce_window =
      cleanup_nonces ((n, now % 2 ^ 64) :: sm.nonce_window) (M * 2 % 2 ^ 64) (now % 2 ^ 64) := by
  rcases validate_nonce_cases sm n M now with hc | ⟨hk, hc⟩
  · rw [hc] at h; exact absurd h (by simp)
  · rw [hc]
    exact ⟨hk, rfl⟩

/-- The freshly inserted nonce survives the sweep whenever the (wrapped) sweep
threshold is positive. -/
theorem containsKey_cleanup_insert (w : List (String × Nat)) (n : String) (t m : Nat)
    (hm : 0 < m) :
    containsKey (cleanup_nonces ((n, t) :: w) m t) n = true := by
  unfold cleanup_nonces
  have hcond : (wsub64 t t < m) := by rw [wsub64_self]; exact hm
  rw [List.filter_cons_of_pos (by simpa using hcond)]
  simp [containsKey]

/-- The state returned by verify_auth_frame is always the state left by its
nonce validation. -/
theorem verify_auth_frame_state (C : CryptoPrims) (sm : SecurityManager) (f : OpacusFrame)
    (ep xp sp : List Byte) (now : Nat) :
    (verify_auth_frame C sm f ep xp sp now).2 = (validate_nonce sm f.nonce 60000 now).2 := by
  unfold verify_auth_frame
  dsimp only
  repeat' first
    | rfl
    | split

/-- If the nonce check fails, verify_auth_frame reports exactly that. -/
theorem verify_auth_frame_invalid_nonce (C : CryptoPrims) (sm : SecurityManager)
    (f : OpacusFrame) (ep xp sp : List Byte) (now : Nat)
    (h : (validate_nonce sm f.nonce 60000 now).1 = false) :
    (verify_auth_frame C sm f ep xp sp now).1 = .error "Invalid or replayed nonce" := by
  unfold verify_auth_frame
  simp only [h, if_pos]

end SecurityManager

open SecurityManager in
/-- Claim C4, counterexample: with max_age_ms = 0 the acceptance sweep removes
every window entry including the nonce just inserted, so the very same nonce
string is accepted twice in a row by the same manager (both calls at clock
time 5, nonce with embedded timestamp 5). -/
theorem nonce_double_accept_counterexample :
    (validate_nonce SecurityManager.new "5-a" 0 5).1 = true ∧
    (validate_nonce (validate_nonce SecurityManager.new "5-a" 0 5).2 "5-a" 0 5).1 = true := by
  constructor <;> decide

open SecurityManager in
/-- Claim C4, amended: a nonce is accepted at most once while it remains in
the nonce window: a call that finds the nonce in the window rejects it, and
an accepting call whose max_age_ms is positive (and whose doubled sweep
threshold does not wrap u64) leaves the nonce in the window.  (A later
accepted call whose sweep evicts the entry can make the nonce acceptable
again, as the counterexample shows.) -/
theorem validate_nonce_at_most_once_while_in_window (sm : SecurityManager) (n : String)
    (M now : Nat) (hM : 0 < M) (hM2 : M * 2 < 2 ^ 64) :
    (containsKey sm.nonce_window n = true → (validate_nonce sm n M now).1 = false) ∧
    ((validate_nonce sm n M now).1 = true →
      containsKey (validate_nonce sm n M now).2.nonce_window n = true) := by
  constructor
  · exact validate_nonce_contains_false sm n M now
  · intro ht
    obtain ⟨-, hw⟩ := validate_nonce_true_window sm n M now ht
    rw [hw]
    exact containsKey_cleanup_insert _ n _ _ (by rw [Nat.mod_eq_of_lt hM2]; omega)

open SecurityManager in
/-- Witness for the amended C4 theorem at concrete inputs. -/
theorem validate_nonce_at_most_once_while_in_window_witness :
    (0 < 60000 ∧ 60000 * 2 < 2 ^ 64) ∧
    ((containsKey SecurityManager.new.nonce_window "5-a" = true →
        (validate_nonce SecurityManager.new "5-a" 60000 5).1 = false) ∧
      ((validate_nonce SecurityManager.new "5-a" 60000 5).1 = true →
        containsKey (validate_nonce SecurityManager.new "5-a" 60000 5).2.nonce_window "5-a"
          = true)) :=
  ⟨by decide,
   validate_nonce_at_most_once_while_in_window SecurityManager.new "5-a" 60000 5
     (by decide) (by decide)⟩

open SecurityManager in
/-- Claim C10, counterexample: even under the claim's clock precondition (the
window is empty here), a call with max_age_ms = 2^63 panics in an
overflow-checked build: accepting the nonce evaluates max_age_ms * 2, which
overflows u64.  The checked model returns none (panic). -/
theorem validate_nonce_overflow_panic_counterexample :
    validate_nonce_checked SecurityManager.new "5-a" (2 ^ 63) 5 = none := by
  decide

open SecurityManager in
/-- Claim C10, amended: for every input string and max_age_ms with
max_age_ms * 2 below 2^64, and under the precondition that no stored window
timestamp exceeds the (u64-cast) clock reading, validate_nonce runs without
panicking (the checked semantics agrees with the total model), and whenever
it returns false the manager, and with it the nonce window, is unchanged. -/
theorem validate_nonce_safe (sm : SecurityManager) (n : String) (M now : Nat)
    (hpre : ∀ e ∈ sm.nonce_window, e.2 ≤ now % 2 ^ 64) (hM2 : M * 2 < 2 ^ 64) :
    validate_nonce_checked sm n M now = some (validate_nonce sm n M now) ∧
    ((validate_nonce sm n M now).1 = false → (validate_nonce sm n M now).2 = sm) := by
  refine ⟨?_, validate_nonce_false_unchanged sm n M now⟩
  unfold validate_nonce validate_nonce_checked
  split
  · split
    · rfl
    · split
      · rfl
      · split
        · rfl
        · have hall : ((n, now % 2 ^ 64) :: sm.nonce_window).all
              (fun e => e.2 ≤ now % 2 ^ 64) = true := by
            rw [List.all_eq_true]
            intro e he
            rcases List.mem_cons.mp he with rfl | he
            · simp
            · simpa using hpre e he
          have hfil : ∀ e ∈ ((n, now % 2 ^ 64) :: sm.nonce_window),
              decide (now % 2 ^ 64 - e.2 < M * 2) =
              decide (wsub64 (now % 2 ^ 64) e.2 < M * 2 % 2 ^ 64) := by
            intro e he
            have he2 : e.2 ≤ now % 2 ^ 64 := by
              rcases List.mem_cons.mp he with rfl | he
              · simp
              · exact hpre e he
            rw [wsub64_of_le _ _ he2 (Nat.mod_lt _ (by omega)), Nat.mod_eq_of_lt hM2]
          simp only [hM2, if_true, hall, if_true, cleanup_nonces]
          rw [List.filter_congr hfil]
  · rfl

open SecurityManager in
/-- Witness for the amended C10 theorem at concrete inputs. -/
theorem validate_nonce_safe_witness :
    ((∀ e ∈ SecurityManager.new.nonce_window, e.2 ≤ 5 % 2 ^ 64) ∧ 60000 * 2 < 2 ^ 64) ∧
    (validate_nonce_checked SecurityManager.new "6-b" 60000 5 =
        some (validate_nonce SecurityManager.new "6-b" 60000 5) ∧
      ((validate_nonce SecurityManager.new "6-b" 60000 5).1 = false →
        (validate_nonce SecurityManager.new "6-b" 60000 5).2 = SecurityManager.new)) :=
  ⟨⟨by simp [SecurityManager.new], by decide⟩,
   validate_nonce_safe SecurityManager.new "6-b" 60000 5
     (by simp [SecurityManager.new]) (by decide)⟩

/-- A crypto record with trivial primitives, enough for witnesses that never
reach signature or HMAC checking. -/
def nullCrypto : CryptoPrims :=
  { dh := fun _ _ => [], hkdfExpand := fun _ _ => [], hmacSha256 := fun _ _ => [],
    edSign := fun _ _ => [], edVerify := fun _ _ _ => false }

instance : DecidableEq (Except String Unit) := fun a b =>
  match a, b with
  | .ok (), .ok () => isTrue rfl
  | .error s, .error t =>
    if h : s = t then isTrue (by rw [h]) else isFalse (fun hc => h (Except.error.inj hc))
  | .ok (), .error _ => isFalse (fun hc => Except.noConfusion hc)
  | .error _, .ok () => isFalse (fun hc => Except.noConfusion hc)

open SecurityManager in
/-- Claim C8: verify_auth_frame validates (and so records) the nonce before
the HMAC-presence, signature and HMAC checks; a frame rejected with any of
those four reasons has therefore already consumed its nonce, and any second
call on the resulting manager with the same nonce fails with
"Invalid or replayed nonce". -/
theorem verify_reject_records_nonce (C : CryptoPrims) (sm : SecurityManager)
    (f : OpacusFrame) (ep xp sp : List Byte) (now : Nat)
    (herr : (verify_auth_frame C sm f ep xp sp now).1 = .error "Missing HMAC" ∨
      (verify_auth_frame C sm f ep xp sp now).1 = .error "Missing signature" ∨
      (verify_auth_frame C sm f ep xp sp now).1 = .error "Invalid signature" ∨
      (verify_auth_frame C sm f ep xp sp now).1 = .error "HMAC mismatch") :
    containsKey (verify_auth_frame C sm f ep xp sp now).2.nonce_window f.nonce = true ∧
    ∀ (C' : CryptoPrims) (f' : OpacusFrame) (ep' xp' sp' : List Byte) (now' : Nat),
      f'.nonce = f.nonce →
      (verify_auth_frame C' (verify_auth_frame C sm f ep xp sp now).2 f' ep' xp' sp' now').1 =
        .error "Invalid or replayed nonce" := by
  have hval : (validate_nonce sm f.nonce 60000 now).1 = true := by
    by_cases hv : (validate_nonce sm f.nonce 60000 now).1 = false
    · exfalso
      have := verify_auth_frame_invalid_nonce C sm f ep xp sp now hv
      rw [this] at herr
      rcases herr with h | h | h | h <;> exact absurd (Except.error.inj h) (by decide)
    · exact eq_true_of_ne_false hv
  have hstate := verify_auth_frame_state C sm f ep xp sp now
  obtain ⟨-, hw⟩ := validate_nonce_true_window sm f.nonce 60000 now hval
  have hcontains : containsKey (verify_auth_frame C sm f ep xp sp now).2.nonce_window f.nonce
      = true := by
    rw [hstate, hw]
    exact containsKey_cleanup_insert _ _ _ _ (by decide)
  refine ⟨hcontains, ?_⟩
  intro C' f' ep' xp' sp' now' hn
  have hv2 : (validate_nonce (verify_auth_frame C sm f ep xp sp now).2 f'.nonce 60000 now').1
      = false := by
    rw [hn]
    exact validate_nonce_contains_false _ _ _ _ hcontains
  exact verify_auth_frame_invalid_nonce C' _ f' ep' xp' sp' now' hv2

/-- Witness for the C8 theorem: a frame with a fresh nonce but no hmac field
is rejected with "Missing HMAC", after which its nonce is burned. -/
theorem verify_reject_records_nonce_witness :
    ((SecurityManager.verify_auth_frame nullCrypto SecurityManager.new
        ⟨1, .msg, "a", "b", 1, 5, "5-x", [], none, none⟩ [] [] [] 5).1 = .error "Missing HMAC" ∨
      (SecurityManager.verify_auth_frame nullCrypto SecurityManager.new
        ⟨1, .msg, "a", "b", 1, 5, "5-x", [], none, none⟩ [] [] [] 5).1 = .error "Missing signature" ∨
      (SecurityManager.verify_auth_frame nullCrypto SecurityManager.new
        ⟨1, .msg, "a", "b", 1, 5, "5-x", [], none, none⟩ [] [] [] 5).1 = .error "Invalid signature" ∨
      (SecurityManager.verify_auth_frame nullCrypto SecurityManager.new
        ⟨1, .msg, "a", "b", 1, 5, "5-x", [], none, none⟩ [] [] [] 5).1 = .error "HMAC mismatch") ∧
    (SecurityManager.containsKey (SecurityManager.verify_auth_frame nullCrypto SecurityManager.new
        ⟨1, .msg, "a", "b", 1, 5, "5-x", [], none, none⟩ [] [] [] 5).2.nonce_window "5-x" = true ∧
      ∀ (C' : CryptoPrims) (f' : OpacusFrame) (ep' xp' sp' : List Byte) (now' : Nat),
        f'.nonce = (⟨1, .msg, "a", "b", 1, 5, "5-x", [], none, none⟩ : OpacusFrame).nonce →
        (SecurityManager.verify_auth_frame C'
          (SecurityManager.verify_auth_frame nullCrypto SecurityManager.new
            ⟨1, .msg, "a", "b", 1, 5, "5-x", [], none, none⟩ [] [] [] 5).2
          f' ep' xp' sp' now').1 = .error "Invalid or replayed nonce") :=
  ⟨Or.inl (by decide),
   verify_reject_records_nonce nullCrypto SecurityManager.new
     ⟨1, .msg, "a", "b", 1, 5, "5-x", [], none, none⟩ [] [] [] 5 (Or.inl (by decide))⟩

/-! ## Helper lemmas for the authentication round trip (claim C1) -/

namespace SecurityManager

theorem hex16_no_dash (r : Nat) : ∀ c ∈ hex16 r, ¬ (c = Char.ofNat 45) := by
  intro c hc
  unfold hex16 at hc
  rw [List.mem_map] at hc
  obtain ⟨i, -, rfl⟩ := hc
  have hv : r % 2 ^ 64 / 16 ^ (15 - i) % 16 < 16 := Nat.mod_lt _ (by omega)
  revert hv
  generalize r % 2 ^ 64 / 16 ^ (15 - i) % 16 = v
  revert v
  decide

theorem decChars_no_dash (n : Nat) : ∀ c ∈ decChars n, ¬ (c = Char.ofNat 45) := by
  intro c hc hcc
  have := decChars_digits n c hc
  rw [hcc] at this
  revert this
  decide

theorem splitChar_generate_nonce (now rand : Nat) :
    splitChar (Char.ofNat 45) (generate_nonce now rand).data = [decChars now, hex16 rand] := by
  show splitChar (Char.ofNat 45) (decChars now ++ Char.ofNat 45 :: hex16 rand) = _
  exact splitChar_pair _ _ _
    (fun h => decChars_no_dash now _ h rfl)
    (fun h => hex16_no_dash rand _ h rfl)

/-- A freshly generated nonce passes validation on a fresh manager whenever
the receiver's clock is within max_age of the embedded timestamp. -/
theorem validate_nonce_generate (ln now rand nowR M : Nat) (hnow : now < 2 ^ 128)
    (hfresh : nowR - now ≤ M) :
    (validate_nonce { nonce_window := [], last_nonce := ln } (generate_nonce now rand) M nowR).1
      = true := by
  unfold validate_nonce
  rw [splitChar_generate_nonce now rand]
  dsimp only
  rw [parseU128_decChars now hnow]
  dsimp only
  have h1 : ¬ (nowR - now > M) := by omega
  rw [if_neg h1]
  rfl

end SecurityManager

/-! Injectivity of the canonical HMAC and signing inputs in the tampered
positions.  The inputs are pipe-separated; two inputs that agree on every
chunk except one are equal only if that chunk is equal, by cancelling the
common prefix and suffix of the underlying character lists. -/

namespace SecurityManager

theorem signDataStr_inj_nonce (v : Nat) (t : FrameType) (fr dst : String) (sq ts : Nat)
    (n n' hm : String)
    (h : signDataStr v t fr dst sq ts n hm = signDataStr v t fr dst sq ts n' hm) : n = n' := by
  have hd := congrArg String.data h
  simp only [signDataStr, String.data_append, List.append_assoc] at hd
  iterate 12 replace hd := List.append_cancel_left hd
  exact String.ext (List.append_cancel_right hd)

theorem signDataStr_inj_seq (v : Nat) (t : FrameType) (fr dst : String) (sq sq' ts : Nat)
    (n hm : String) (hsq : sq < 2 ^ 128) (hsq' : sq' < 2 ^ 128)
    (h : signDataStr v t fr dst sq ts n hm = signDataStr v t fr dst sq' ts n hm) : sq = sq' := by
  have hd := congrArg String.data h
  simp only [signDataStr, String.data_append, List.append_assoc] at hd
  iterate 8 replace hd := List.append_cancel_left hd
  exact decChars_inj sq sq' hsq hsq' (List.append_cancel_right hd)

theorem signDataStr_inj_ts (v : Nat) (t : FrameType) (fr dst : String) (sq ts ts' : Nat)
    (n hm : String) (hts : ts < 2 ^ 128) (hts' : ts' < 2 ^ 128)
    (h : signDataStr v t fr dst sq ts n hm = signDataStr v t fr dst sq ts' n hm) : ts = ts' := by
  have hd := congrArg String.data h
  simp only [signDataStr, String.data_append, List.append_assoc] at hd
  iterate 10 replace hd := List.append_cancel_left hd
  exact decChars_inj ts ts' hts hts' (List.append_cancel_right hd)

theorem hmacDataStr_inj_payload (t : FrameType) (fr dst : String) (sq ts : Nat)
    (n ph ph' : String)
    (h : hmacDataStr t fr dst sq ts n ph = hmacDataStr t fr dst sq ts n ph') : ph = ph' := by
  have hd := congrArg String.data h
  simp only [hmacDataStr, String.data_append, List.append_assoc] at hd
  iterate 12 replace hd := List.append_cancel_left hd
  exact String.ext hd

end SecurityManager

namespace SecurityManager

/-- Evaluation of verify_auth_frame on a frame carrying hmac and sig, once the
nonce has validated: first the signature check, then the HMAC check. -/
theorem verify_auth_frame_eval (C : CryptoPrims) (sm : SecurityManager) (f : OpacusFrame)
    (ep xp sp : List Byte) (now : Nat) (hm : String) (sg : List Byte)
    (hhm : f.hmac = some hm) (hsg : f.sig = some sg)
    (hok : (validate_nonce sm f.nonce 60000 now).1 = true) :
    (verify_auth_frame C sm f ep xp sp now).1 =
      if C.edVerify ep (signDataStr f.version f.frame_type f.from_ f.to_ f.seq f.ts f.nonce hm) sg
          = false then .error "Invalid signature"
      else if (hexEncode (C.hmacSha256 (C.hkdfExpand (C.dh xp sp) infoLabel)
            (hmacDataStr f.frame_type f.from_ f.to_ f.seq f.ts f.nonce (hexEncode f.payload)))
          == hm) = false then .error "HMAC mismatch"
      else .ok () := by
  unfold verify_auth_frame
  dsimp only
  rw [hok, hhm, hsg]
  dsimp only [verify, verify_hmac, generate_hmac, derive_session_key, derive_shared_secret]
  rw [if_neg (by simp : ¬ (true = false))]
  split
  · rfl
  · split <;> rfl

/-- verify_auth_frame accepts when the nonce, signature and HMAC checks pass. -/
theorem verify_ok_of (C : CryptoPrims) (sm : SecurityManager) (f : OpacusFrame)
    (ep xp sp : List Byte) (now : Nat) (hm : String) (sg : List Byte)
    (hhm : f.hmac = some hm) (hsg : f.sig = some sg)
    (hok : (validate_nonce sm f.nonce 60000 now).1 = true)
    (h1 : C.edVerify ep (signDataStr f.version f.frame_type f.from_ f.to_ f.seq f.ts f.nonce hm) sg
      = true)
    (h2 : (hexEncode (C.hmacSha256 (C.hkdfExpand (C.dh xp sp) infoLabel)
        (hmacDataStr f.frame_type f.from_ f.to_ f.seq f.ts f.nonce (hexEncode f.payload)))
      == hm) = true) :
    (verify_auth_frame C sm f ep xp sp now).1 = .ok () := by
  rw [verify_auth_frame_eval C sm f ep xp sp now hm sg hhm hsg hok, h1, h2]
  rw [if_neg (by simp : ¬ (true = false)), if_neg (by simp : ¬ (true = false))]

/-- verify_auth_frame rejects when the signature check fails. -/
theorem verify_bad_sig (C : CryptoPrims) (sm : SecurityManager) (f : OpacusFrame)
    (ep xp sp : List Byte) (now : Nat) (hm : String) (sg : List Byte)
    (hhm : f.hmac = some hm) (hsg : f.sig = some sg)
    (hok : (validate_nonce sm f.nonce 60000 now).1 = true)
    (h1 : C.edVerify ep (signDataStr f.version f.frame_type f.from_ f.to_ f.seq f.ts f.nonce hm) sg
      = false) :
    (verify_auth_frame C sm f ep xp sp now).1 = .error "Invalid signature" := by
  rw [verify_auth_frame_eval C sm f ep xp sp now hm sg hhm hsg hok, h1, if_pos rfl]

/-- verify_auth_frame rejects when the signature passes but the HMAC differs. -/
theorem verify_bad_hmac (C : CryptoPrims) (sm : SecurityManager) (f : OpacusFrame)
    (ep xp sp : List Byte) (now : Nat) (hm : String) (sg : List Byte)
    (hhm : f.hmac = some hm) (hsg : f.sig = some sg)
    (hok : (validate_nonce sm f.nonce 60000 now).1 = true)
    (h1 : C.edVerify ep (signDataStr f.version f.frame_type f.from_ f.to_ f.seq f.ts f.nonce hm) sg
      = true)
    (h2 : (hexEncode (C.hmacSha256 (C.hkdfExpand (C.dh xp sp) infoLabel)
        (hmacDataStr f.frame_type f.from_ f.to_ f.seq f.ts f.nonce (hexEncode f.payload)))
      == hm) = false) :
    (verify_auth_frame C sm f ep xp sp now).1 = .error "HMAC mismatch" := by
  rw [verify_auth_frame_eval C sm f ep xp sp now hm sg hhm hsg hok, h1]
  rw [if_neg (by simp : ¬ (true = false)), h2, if_pos rfl]

/-- Rejection variants phrased as a non-ok result, convenient for apply. -/
theorem verify_invalid_nonce_ne (C : CryptoPrims) (sm : SecurityManager) (f : OpacusFrame)
    (ep xp sp : List Byte) (now : Nat)
    (h : (validate_nonce sm f.nonce 60000 now).1 = false) :
    (verify_auth_frame C sm f ep xp sp now).1 ≠ .ok () := by
  rw [verify_auth_frame_invalid_nonce C sm f ep xp sp now h]
  intro hc
  exact Except.noConfusion hc

theorem verify_bad_sig_ne (C : CryptoPrims) (sm : SecurityManager) (f : OpacusFrame)
    (ep xp sp : List Byte) (now : Nat) (hm : String) (sg : List Byte)
    (hhm : f.hmac = some hm) (hsg : f.sig = some sg)
    (hok : (validate_nonce sm f.nonce 60000 now).1 = true)
    (h1 : C.edVerify ep (signDataStr f.version f.frame_type f.from_ f.to_ f.seq f.ts f.nonce hm) sg
      = false) :
    (verify_auth_frame C sm f ep xp sp now).1 ≠ .ok () := by
  rw [verify_bad_sig C sm f ep xp sp now hm sg hhm hsg hok h1]
  intro hc
  exact Except.noConfusion hc

theorem verify_bad_hmac_ne (C : CryptoPrims) (sm : SecurityManager) (f : OpacusFrame)
    (ep xp sp : List Byte) (now : Nat) (hm : String) (sg : List Byte)
    (hhm : f.hmac = some hm) (hsg : f.sig = some sg)
    (hok : (validate_nonce sm f.nonce 60000 now).1 = true)
    (h1 : C.edVerify ep (signDataStr f.version f.frame_type f.from_ f.to_ f.seq f.ts f.nonce hm) sg
      = true)
    (h2 : (hexEncode (C.hmacSha256 (C.hkdfExpand (C.dh xp sp) infoLabel)
        (hmacDataStr f.frame_type f.from_ f.to_ f.seq f.ts f.nonce (hexEncode f.payload)))
      == hm) = false) :
    (verify_auth_frame C sm f ep xp sp now).1 ≠ .ok () := by
  rw [verify_bad_hmac C sm f ep xp sp now hm sg hhm hsg hok h1 h2]
  intro hc
  exact Except.noConfusion hc

/-- The frame built by create_auth_frame, with every field explicit. -/
theorem create_auth_frame_frame (C : CryptoPrims) (smS : SecurityManager)
    (idn : AgentIdentity) (xpubR : List Byte) (ftype : FrameType) (dst : String)
    (payload : List Byte) (now rand : Nat) :
    (create_auth_frame C smS idn xpubR ftype dst payload now rand).1 =
      { version := 1, frame_type := ftype, from_ := idn.id, to_ := dst,
        seq := (smS.last_nonce + 1) % 2 ^ 64, ts := now % 2 ^ 64,
        nonce := generate_nonce now rand, payload := payload,
        hmac := some (hexEncode (C.hmacSha256 (C.hkdfExpand (C.dh idn.x_priv xpubR) infoLabel)
          (hmacDataStr ftype idn.id dst ((smS.last_nonce + 1) % 2 ^ 64) (now % 2 ^ 64)
            (generate_nonce now rand) (hexEncode payload)))),
        sig := some (C.edSign idn.ed_priv (signDataStr 1 ftype idn.id dst
          ((smS.last_nonce + 1) % 2 ^ 64) (now % 2 ^ 64) (generate_nonce now rand)
          (hexEncode (C.hmacSha256 (C.hkdfExpand (C.dh idn.x_priv xpubR) infoLabel)
            (hmacDataStr ftype idn.id dst ((smS.last_nonce + 1) % 2 ^ 64) (now % 2 ^ 64)
              (generate_nonce now rand) (hexEncode payload)))))) } := rfl

end SecurityManager

open SecurityManager in
/-- Claim C1: for every sender identity and receiver holding the matching
keys (the receiver verifies with the sender's Ed25519 public key, its own
X25519 private key matching the peer_x_pub the sender used, and the sender's
X25519 public key), and every frame type, recipient and payload, a frame
from create_auth_frame is accepted by a fresh receiving SecurityManager's
verify_auth_frame within 60 000 ms of creation; and any change (in
particular any bit flip) to the frame's payload, nonce, seq, ts or sig makes
verify_auth_frame reject.  The external primitives carry their standard
correctness assumptions: signature verification succeeds exactly on the
signed message (hver), signing is injective (hsiginj), X25519 DH agrees on
the two key pairs (hdh), and HMAC-SHA256 under the session key is
collision-free (hhinj). -/
theorem auth_roundtrip_and_tamper_reject (C : CryptoPrims) (idn : AgentIdentity)
    (xprivR xpubR : List Byte) (ftype : FrameType) (dst : String) (payload : List Byte)
    (smS : SecurityManager) (now rand nowR : Nat) (F : OpacusFrame)
    (hF : F = (create_auth_frame C smS idn xpubR ftype dst payload now rand).1)
    (hver : ∀ m s, C.edVerify idn.ed_pub m s = true ↔ s = C.edSign idn.ed_priv m)
    (hsiginj : Function.Injective (C.edSign idn.ed_priv))
    (hdh : C.dh xprivR idn.x_pub = C.dh idn.x_priv xpubR)
    (hhinj : Function.Injective (C.hmacSha256 (C.hkdfExpand (C.dh idn.x_priv xpubR) infoLabel)))
    (hnow : now < 2 ^ 128) (hfresh : nowR - now ≤ 60000) :
    (verify_auth_frame C SecurityManager.new F idn.ed_pub xprivR idn.x_pub nowR).1 = .ok () ∧
    (∀ p', p' ≠ F.payload →
      (verify_auth_frame C SecurityManager.new { F with payload := p' }
        idn.ed_pub xprivR idn.x_pub nowR).1 ≠ .ok ()) ∧
    (∀ n', n' ≠ F.nonce →
      (verify_auth_frame C SecurityManager.new { F with nonce := n' }
        idn.ed_pub xprivR idn.x_pub nowR).1 ≠ .ok ()) ∧
    (∀ s', s' < 2 ^ 128 → s' ≠ F.seq →
      (verify_auth_frame C SecurityManager.new { F with seq := s' }
        idn.ed_pub xprivR idn.x_pub nowR).1 ≠ .ok ()) ∧
    (∀ t', t' < 2 ^ 128 → t' ≠ F.ts →
      (verify_auth_frame C SecurityManager.new { F with ts := t' }
        idn.ed_pub xprivR idn.x_pub nowR).1 ≠ .ok ()) ∧
    (∀ g' s0, F.sig = some s0 → g' ≠ s0 →
      (verify_auth_frame C SecurityManager.new { F with sig := some g' }
        idn.ed_pub xprivR idn.x_pub nowR).1 ≠ .ok ()) := by
  rw [create_auth_frame_frame C smS idn xpubR ftype dst payload now rand] at hF
  subst hF
  have hseqlt : (smS.last_nonce + 1) % 2 ^ 64 < 2 ^ 128 := by
    have : (smS.last_nonce + 1) % 2 ^ 64 < 2 ^ 64 := Nat.mod_lt _ (by norm_num)
    omega
  have htslt : now % 2 ^ 64 < 2 ^ 128 := by
    have : now % 2 ^ 64 < 2 ^ 64 := Nat.mod_lt _ (by norm_num)
    omega
  have hvalok : (validate_nonce SecurityManager.new (generate_nonce now rand) 60000 nowR).1
      = true := validate_nonce_generate 0 now rand nowR 60000 hnow hfresh
  have herrne : ∀ e : String, (Except.error e : Except String Unit) ≠ .ok () := by
    intro e h
    exact Except.noConfusion h
  have hmaceq : (hexEncode (C.hmacSha256 (C.hkdfExpand (C.dh xprivR idn.x_pub) infoLabel)
      (hmacDataStr ftype idn.id dst ((smS.last_nonce + 1) % 2 ^ 64) (now % 2 ^ 64)
        (generate_nonce now rand) (hexEncode payload)))
      == hexEncode (C.hmacSha256 (C.hkdfExpand (C.dh idn.x_priv xpubR) infoLabel)
      (hmacDataStr ftype idn.id dst ((smS.last_nonce + 1) % 2 ^ 64) (now % 2 ^ 64)
        (generate_nonce now rand) (hexEncode payload)))) = true := by
    rw [hdh]
    exact beq_self_eq_true _
  refine ⟨?_, ?_, ?_, ?_, ?_, ?_⟩
  · exact verify_ok_of C SecurityManager.new _ idn.ed_pub xprivR idn.x_pub nowR _ _
      rfl rfl hvalok ((hver _ _).mpr rfl) hmaceq
  · intro p' hp'
    have h2 : (hexEncode (C.hmacSha256 (C.hkdfExpand (C.dh xprivR idn.x_pub) infoLabel)
        (hmacDataStr ftype idn.id dst ((smS.last_nonce + 1) % 2 ^ 64) (now % 2 ^ 64)
          (generate_nonce now rand) (hexEncode p')))
        == hexEncode (C.hmacSha256 (C.hkdfExpand (C.dh idn.x_priv xpubR) infoLabel)
        (hmacDataStr ftype idn.id dst ((smS.last_nonce + 1) % 2 ^ 64) (now % 2 ^ 64)
          (generate_nonce now rand) (hexEncode payload)))) = false := by
      rw [hdh, beq_eq_false_iff_ne]
      intro heq
      exact hp' (hexEncode_inj (hmacDataStr_inj_payload _ _ _ _ _ _ _ _
        (hhinj (hexEncode_inj heq))))
    apply verify_bad_hmac_ne
    · rfl
    · rfl
    · exact hvalok
    · exact (hver _ _).mpr rfl
    · exact h2
  · intro n' hn'
    by_cases hv : (validate_nonce SecurityManager.new n' 60000 nowR).1 = false
    · apply verify_invalid_nonce_ne
      exact hv
    · have hvt := eq_true_of_ne_false hv
      have h1 : C.edVerify idn.ed_pub
          (signDataStr 1 ftype idn.id dst ((smS.last_nonce + 1) % 2 ^ 64) (now % 2 ^ 64) n'
            (hexEncode (C.hmacSha256 (C.hkdfExpand (C.dh idn.x_priv xpubR) infoLabel)
              (hmacDataStr ftype idn.id dst ((smS.last_nonce + 1) % 2 ^ 64) (now % 2 ^ 64)
                (generate_nonce now rand) (hexEncode payload)))))
          (C.edSign idn.ed_priv (signDataStr 1 ftype idn.id dst ((smS.last_nonce + 1) % 2 ^ 64)
            (now % 2 ^ 64) (generate_nonce now rand)
            (hexEncode (C.hmacSha256 (C.hkdfExpand (C.dh idn.x_priv xpubR) infoLabel)
              (hmacDataStr ftype idn.id dst ((smS.last_nonce + 1) % 2 ^ 64) (now % 2 ^ 64)
                (generate_nonce now rand) (hexEncode payload)))))) = false := by
        rw [← Bool.not_eq_true]
        intro ht
        have hx := hsiginj ((hver _ _).mp ht)
        exact hn' (signDataStr_inj_nonce _ _ _ _ _ _ _ _ _ hx).symm
      apply verify_bad_sig_ne
      · rfl
      · rfl
      · exact hvt
      · exact h1
  · intro s' hs128 hs'
    have h1 : C.edVerify idn.ed_pub
        (signDataStr 1 ftype idn.id dst s' (now % 2 ^ 64) (generate_nonce now rand)
          (hexEncode (C.hmacSha256 (C.hkdfExpand (C.dh idn.x_priv xpubR) infoLabel)
            (hmacDataStr ftype idn.id dst ((smS.last_nonce + 1) % 2 ^ 64) (now % 2 ^ 64)
              (generate_nonce now rand) (hexEncode payload)))))
        (C.edSign idn.ed_priv (signDataStr 1 ftype idn.id dst ((smS.last_nonce + 1) % 2 ^ 64)
          (now % 2 ^ 64) (generate_nonce now rand)
          (hexEncode (C.hmacSha256 (C.hkdfExpand (C.dh idn.x_priv xpubR) infoLabel)
            (hmacDataStr ftype idn.id dst ((smS.last_nonce + 1) % 2 ^ 64) (now % 2 ^ 64)
              (generate_nonce now rand) (hexEncode payload)))))) = false := by
      rw [← Bool.not_eq_true]
      intro ht
      have hx := hsiginj ((hver _ _).mp ht)
      exact hs' (signDataStr_inj_seq _ _ _ _ _ _ _ _ _ hseqlt hs128 hx).symm
    apply verify_bad_sig_ne
    · rfl
    · rfl
    · exact hvalok
    · exact h1
  · intro t' ht128 ht'
    have h1 : C.edVerify idn.ed_pub
        (signDataStr 1 ftype idn.id dst ((smS.last_nonce + 1) % 2 ^ 64) t'
          (generate_nonce now rand)
          (hexEncode (C.hmacSha256 (C.hkdfExpand (C.dh idn.x_priv xpubR) infoLabel)
            (hmacDataStr ftype idn.id dst ((smS.last_nonce + 1) % 2 ^ 64) (now % 2 ^ 64)
              (generate_nonce now rand) (hexEncode payload)))))
        (C.edSign idn.ed_priv (signDataStr 1 ftype idn.id dst ((smS.last_nonce + 1) % 2 ^ 64)
          (now % 2 ^ 64) (generate_nonce now rand)
          (hexEncode (C.hmacSha256 (C.hkdfExpand (C.dh idn.x_priv xpubR) infoLabel)
            (hmacDataStr ftype idn.id dst ((smS.last_nonce + 1) % 2 ^ 64) (now % 2 ^ 64)
              (generate_nonce now rand) (hexEncode payload)))))) = false := by
      rw [← Bool.not_eq_true]
      intro ht
      have hx := hsiginj ((hver _ _).mp ht)
      exact ht' (signDataStr_inj_ts _ _ _ _ _ _ _ _ _ htslt ht128 hx).symm
    apply verify_bad_sig_ne
    · rfl
    · rfl
    · exact hvalok
    · exact h1
  · intro g' s0 hs0 hg'
    have hs0v : s0 = C.edSign idn.ed_priv (signDataStr 1 ftype idn.id dst
        ((smS.last_nonce + 1) % 2 ^ 64) (now % 2 ^ 64) (generate_nonce now rand)
        (hexEncode (C.hmacSha256 (C.hkdfExpand (C.dh idn.x_priv xpubR) infoLabel)
          (hmacDataStr ftype idn.id dst ((smS.last_nonce + 1) % 2 ^ 64) (now % 2 ^ 64)
            (generate_nonce now rand) (hexEncode payload))))) := (Option.some.inj hs0).symm
    have h1 : C.edVerify idn.ed_pub
        (signDataStr 1 ftype idn.id dst ((smS.last_nonce + 1) % 2 ^ 64) (now % 2 ^ 64)
          (generate_nonce now rand)
          (hexEncode (C.hmacSha256 (C.hkdfExpand (C.dh idn.x_priv xpubR) infoLabel)
            (hmacDataStr ftype idn.id dst ((smS.last_nonce + 1) % 2 ^ 64) (now % 2 ^ 64)
              (generate_nonce now rand) (hexEncode payload))))) g' = false := by
      rw [← Bool.not_eq_true]
      intro ht
      exact hg' (((hver _ _).mp ht).trans hs0v.symm)
    apply verify_bad_sig_ne
    · rfl
    · rfl
    · exact hvalok
    · exact h1

/-! ## A concrete instantiation of the crypto interface

For the witness below we instantiate CryptoPrims with simple functions that
provably enjoy the correctness properties assumed of the real primitives:
signatures are the (injectively block-encoded) message prefixed by the key,
verification is equality with the recomputed signature, and the MAC is the
block encoding of its input. -/

theorem char_toNat_lt_size (c : Char) : c.toNat < 1114112 := by
  have h := c.valid
  rcases h with h | ⟨-, h2⟩
  · have : c.val.toNat < 55296 := h
    simpa [Char.toNat] using by omega
  · simpa [Char.toNat] using h2

/-- Four-byte big-endian block of a character code point. -/
def charBlock (c : Char) : List Byte :=
  [Fin.ofNat' 256 (c.toNat / 16777216), Fin.ofNat' 256 (c.toNat / 65536),
   Fin.ofNat' 256 (c.toNat / 256), Fin.ofNat' 256 c.toNat]

theorem charBlock_length (c : Char) : (charBlock c).length = 4 := rfl

theorem charBlock_inj : Function.Injective charBlock := by
  intro a b h
  have ha := char_toNat_lt_size a
  have hb := char_toNat_lt_size b
  simp only [charBlock, List.cons.injEq, and_true, Fin.ofNat', Fin.mk.injEq] at h
  obtain ⟨h1, h2, h3, h4⟩ := h
  have heq : a.toNat = b.toNat := by omega
  have := congrArg Char.ofNat heq
  rwa [Char.ofNat_toNat, Char.ofNat_toNat] at this

/-- Injective byte encoding of a string, block per character. -/
def blocks (s : String) : List Byte :=
  (s.data.map charBlock).flatten

theorem blocks_inj : Function.Injective blocks := by
  intro s t h
  exact String.ext (join_map_fixed_inj charBlock 4 (by omega) charBlock_length charBlock_inj
    s.data t.data h)

/-- Concrete primitives satisfying the assumptions of the round-trip theorem. -/
def toyCrypto : CryptoPrims :=
  { dh := fun a b => a ++ b,
    hkdfExpand := fun ikm info => ikm ++ info,
    hmacSha256 := fun _k d => blocks d,
    edSign := fun k m => k ++ blocks m,
    edVerify := fun pub m s => s == pub ++ blocks m }

/-- A concrete identity whose key bytes are all empty lists. -/
def idn0 : AgentIdentity :=
  { id := "a", ed_pub := [], ed_priv := [], x_pub := [], x_priv := [], address := "0xa",
    chain_id := 0 }

/-- The concrete frame for the round-trip witness. -/
def F0 : OpacusFrame :=
  (SecurityManager.create_auth_frame toyCrypto SecurityManager.new idn0 [] .msg "b" [] 5 0).1

theorem toyVer : ∀ m s, toyCrypto.edVerify idn0.ed_pub m s = true ↔
    s = toyCrypto.edSign idn0.ed_priv m :=
  fun _ _ => beq_iff_eq

theorem toySign_inj : Function.Injective (toyCrypto.edSign idn0.ed_priv) :=
  fun _ _ h => blocks_inj h

theorem toyHmac_inj : Function.Injective (toyCrypto.hmacSha256
    (toyCrypto.hkdfExpand (toyCrypto.dh idn0.x_priv []) infoLabel)) :=
  fun _ _ h => blocks_inj h

open SecurityManager in
/-- Witness for the C1 theorem at a concrete input: the toy primitives, the
empty-key identity, a Msg frame to agent b with empty payload, created and
verified at clock time 5. -/
theorem auth_roundtrip_and_tamper_reject_witness :
    ((∀ m s, toyCrypto.edVerify idn0.ed_pub m s = true ↔ s = toyCrypto.edSign idn0.ed_priv m) ∧
      Function.Injective (toyCrypto.edSign idn0.ed_priv) ∧
      toyCrypto.dh [] idn0.x_pub = toyCrypto.dh idn0.x_priv [] ∧
      Function.Injective (toyCrypto.hmacSha256
        (toyCrypto.hkdfExpand (toyCrypto.dh idn0.x_priv []) infoLabel)) ∧
      (5 : Nat) < 2 ^ 128 ∧ (5 : Nat) - 5 ≤ 60000) ∧
    ((verify_auth_frame toyCrypto SecurityManager.new F0 idn0.ed_pub [] idn0.x_pub 5).1
        = .ok () ∧
      (∀ p', p' ≠ F0.payload →
        (verify_auth_frame toyCrypto SecurityManager.new { F0 with payload := p' }
          idn0.ed_pub [] idn0.x_pub 5).1 ≠ .ok ()) ∧
      (∀ n', n' ≠ F0.nonce →
        (verify_auth_frame toyCrypto SecurityManager.new { F0 with nonce := n' }
          idn0.ed_pub [] idn0.x_pub 5).1 ≠ .ok ()) ∧
      (∀ s', s' < 2 ^ 128 → s' ≠ F0.seq →
        (verify_auth_frame toyCrypto SecurityManager.new { F0 with seq := s' }
          idn0.ed_pub [] idn0.x_pub 5).1 ≠ .ok ()) ∧
      (∀ t', t' < 2 ^ 128 → t' ≠ F0.ts →
        (verify_auth_frame toyCrypto SecurityManager.new { F0 with ts := t' }
          idn0.ed_pub [] idn0.x_pub 5).1 ≠ .ok ()) ∧
      (∀ g' s0, F0.sig = some s0 → g' ≠ s0 →
        (verify_auth_frame toyCrypto SecurityManager.new { F0 with sig := some g' }
          idn0.ed_pub [] idn0.x_pub 5).1 ≠ .ok ())) :=
  ⟨⟨toyVer, toySign_inj, rfl, toyHmac_inj, by decide, by decide⟩,
   auth_roundtrip_and_tamper_reject toyCrypto idn0 [] [] .msg "b" [] SecurityManager.new
     5 0 5 F0 rfl toyVer toySign_inj rfl toyHmac_inj (by decide) (by decide)⟩

/-! ## JSON values and parsing (serde_json, as used by the relay)

The relay parses the Connect payload with serde_json::from_slice into a
Value and reads payload["edPub"] / payload["xPub"] as strings.  serde_json
is an external crate; it is modelled here by a small recursive-descent
parser over the payload bytes covering the JSON grammar (null, booleans,
numbers, strings with escapes including unicode escapes and surrogate
pairs, arrays, objects; insignificant whitespace; full-input consumption).
Deliberate simplifications, none observable by any theorem below: numeric
values are not retained (the relay never reads one), serde_json's rejection
of out-of-range float literals and of invalid UTF-8 inside strings and its
recursion-depth limit of 128 are not modelled. -/

inductive Json where
  | null
  | jbool (b : Bool)
  | jnum
  | jstr (s : List Byte)
  | jarr (xs : List Json)
  | jobj (kvs : List (List Byte × Json))

/-- Skip insignificant JSON whitespace. -/
def skipWs : List Byte → List Byte
  | [] => []
  | b :: rest =>
    if b.val = 32 ∨ b.val = 9 ∨ b.val = 10 ∨ b.val = 13 then skipWs rest else b :: rest

/-- Hex digit value of an ASCII byte (both cases), as accepted by hex::decode
and by JSON unicode escapes. -/
def hexValB (b : Byte) : Option Nat :=
  if 48 ≤ b.val ∧ b.val ≤ 57 then some (b.val - 48)
  else if 97 ≤ b.val ∧ b.val ≤ 102 then some (b.val - 87)
  else if 65 ≤ b.val ∧ b.val ≤ 70 then some (b.val - 55)
  else none

/-- UTF-8 bytes of a code point below 0x110000. -/
def utf8Bytes (n : Nat) : List Byte :=
  if n < 128 then [Fin.ofNat' 256 n]
  else if n < 2048 then [Fin.ofNat' 256 (192 + n / 64), Fin.ofNat' 256 (128 + n % 64)]
  else if n < 65536 then
    [Fin.ofNat' 256 (224 + n / 4096), Fin.ofNat' 256 (128 + n / 64 % 64),
     Fin.ofNat' 256 (128 + n % 64)]
  else
    [Fin.ofNat' 256 (240 + n / 262144), Fin.ofNat' 256 (128 + n / 4096 % 64),
     Fin.ofNat' 256 (128 + n / 64 % 64), Fin.ofNat' 256 (128 + n % 64)]

/-- Read four hex digits (a JSON unicode escape body). -/
def read4Hex : List Byte → Option (Nat × List Byte)
  | a :: b :: c :: d :: rest =>
    match hexValB a, hexValB b, hexValB c, hexValB d with
    | some x, some y, some z, some w => some (4096 * x + 256 * y + 16 * z + w, rest)
    | _, _, _, _ => none
  | _ => none

/-- Parse a JSON string body (after the opening quote) up to the closing
quote, decoding escapes; returns the decoded bytes and the remaining input. -/
def parseJStr : Nat → List Byte → Option (List Byte × List Byte)
  | 0, _ => none
  | _, [] => none
  | fuel + 1, b :: rest =>
    if b.val = 34 then some ([], rest)
    else if b.val = 92 then
      match rest with
      | [] => none
      | e :: r2 =>
        if e.val = 34 ∨ e.val = 92 ∨ e.val = 47 then
          (fun p => (e :: p.1, p.2)) <$> parseJStr fuel r2
        else if e.val = 98 then (fun p => ((8 : Byte) :: p.1, p.2)) <$> parseJStr fuel r2
        else if e.val = 102 then (fun p => ((12 : Byte) :: p.1, p.2)) <$> parseJStr fuel r2
        else if e.val = 110 then (fun p => ((10 : Byte) :: p.1, p.2)) <$> parseJStr fuel r2
        else if e.val = 114 then (fun p => ((13 : Byte) :: p.1, p.2)) <$> parseJStr fuel r2
        else if e.val = 116 then (fun p => ((9 : Byte) :: p.1, p.2)) <$> parseJStr fuel r2
        else if e.val = 117 then
          match read4Hex r2 with
          | none => none
          | some (n, r3) =>
            if 55296 ≤ n ∧ n < 56320 then
              match r3 with
              | s1 :: s2 :: r4 =>
                if s1.val = 92 ∧ s2.val = 117 then
                  match read4Hex r4 with
                  | some (m, r5) =>
                    if 56320 ≤ m ∧ m < 57344 then
                      (fun p => (utf8Bytes (65536 + 1024 * (n - 55296) + (m - 56320)) ++ p.1,
                        p.2)) <$> parseJStr fuel r5
                    else none
                  | none => none
                else none
              | _ => none
            else if 56320 ≤ n ∧ n < 57344 then none
            else (fun p => (utf8Bytes n ++ p.1, p.2)) <$> parseJStr fuel r3
        else none
    else if b.val < 32 then none
    else (fun p => (b :: p.1, p.2)) <$> parseJStr fuel rest

/-- Is this byte an ASCII decimal digit. -/
def isDigB (b : Byte) : Bool := 48 ≤ b.val && b.val ≤ 57

/-- Consume one or more decimal digits. -/
def span1Digits : List Byte → Option (List Byte)
  | b :: rest =>
    if isDigB b then
      some (match span1Digits rest with
        | some r => r
        | none => rest)
    else none
  | [] => none

/-- Parse a JSON number (grammar check only; value discarded). -/
def parseJNum (bs : List Byte) : Option (List Byte) :=
  let afterMinus := match bs with
    | b :: rest => if b.val = 45 then rest else bs
    | [] => bs
  match afterMinus with
  | [] => none
  | b :: rest =>
    let afterInt :=
      if b.val = 48 then some rest
      else if 49 ≤ b.val ∧ b.val ≤ 57 then
        some (match span1Digits rest with
          | some r => r
          | none => rest)
      else none
    match afterInt with
    | none => none
    | some r1 =>
      let afterFrac := match r1 with
        | d :: r2 => if d.val = 46 then span1Digits r2 else some r1
        | [] => some r1
      match afterFrac with
      | none => none
      | some r3 =>
        match r3 with
        | e :: r4 =>
          if e.val = 101 ∨ e.val = 69 then
            match r4 with
            | s :: r5 =>
              if s.val = 43 ∨ s.val = 45 then span1Digits r5 else span1Digits r4
            | [] => none
          else some r3
        | [] => some r3

mutual

/-- Parse one JSON value. -/
def parseJVal : Nat → List Byte → Option (Json × List Byte)
  | 0, _ => none
  | fuel + 1, bs =>
    match skipWs bs with
    | [] => none
    | b :: rest =>
      if b.val = 34 then
        (fun p => (Json.jstr p.1, p.2)) <$> parseJStr (rest.length + 1) rest
      else if b.val = 110 then
        match rest with
        | u :: l1 :: l2 :: r =>
          if u.val = 117 ∧ l1.val = 108 ∧ l2.val = 108 then some (.null, r) else none
        | _ => none
      else if b.val = 116 then
        match rest with
        | r1 :: u :: e :: r =>
          if r1.val = 114 ∧ u.val = 117 ∧ e.val = 101 then some (.jbool true, r) else none
        | _ => none
      else if b.val = 102 then
        match rest with
        | a :: l :: s :: e :: r =>
          if a.val = 97 ∧ l.val = 108 ∧ s.val = 115 ∧ e.val = 101 then
            some (.jbool false, r)
          else none
        | _ => none
      else if b.val = 91 then
        match skipWs rest with
        | c :: r2 =>
          if c.val = 93 then some (.jarr [], r2)
          else (fun p => (Json.jarr p.1, p.2)) <$> parseJArr fuel rest
        | [] => none
      else if b.val = 123 then
        match skipWs rest with
        | c :: r2 =>
          if c.val = 125 then some (.jobj [], r2)
          else (fun p => (Json.jobj p.1, p.2)) <$> parseJObj fuel rest
        | [] => none
      else if b.val = 45 ∨ (48 ≤ b.val ∧ b.val ≤ 57) then
        (fun r => (Json.jnum, r)) <$> parseJNum (b :: rest)
      else none

/-- Parse array elements (after the opening bracket), comma-separated. -/
def parseJArr : Nat → List Byte → Option (List Json × List Byte)
  | 0, _ => none
  | fuel + 1, bs =>
    match parseJVal fuel bs with
    | none => none
    | some (v, r) =>
      match skipWs r with
      | c :: r2 =>
        if c.val = 44 then (fun p => (v :: p.1, p.2)) <$> parseJArr fuel r2
        else if c.val = 93 then some ([v], r2)
        else none
      | [] => none

/-- Parse object members (after the opening brace), comma-separated. -/
def parseJObj : Nat → List Byte → Option (List (List Byte × Json) × List Byte)
  | 0, _ => none
  | fuel + 1, bs =>
    match skipWs bs with
    | k :: r1 =>
      if k.val = 34 then
        match parseJStr (r1.length + 1) r1 with
        | none => none
        | some (key, r2) =>
          match skipWs r2 with
          | c :: r3 =>
            if c.val = 58 then
              match parseJVal fuel r3 with
              | none => none
              | some (v, r4) =>
                match skipWs r4 with
                | d :: r5 =>
                  if d.val = 44 then
                    (fun p => ((key, v) :: p.1, p.2)) <$> parseJObj fuel r5
                  else if d.val = 125 then some ([(key, v)], r5)
                  else none
                | [] => none
            else none
          | [] => none
      else none
    | [] => none

end

/-- serde_json::from_slice into a Value: one value, then only whitespace. -/
def parseJson (bs : List Byte) : Option Json :=
  match parseJVal (2 * bs.length + 2) bs with
  | some (v, r) => if skipWs r = [] then some v else none
  | none => none

/-- Last-wins lookup in an object's member list (serde_json maps keep the
last duplicate key). -/
def objLookupLast (kvs : List (List Byte × Json)) (k : List Byte) : Option Json :=
  kvs.foldl (fun acc kv => if kv.1 = k then some kv.2 else acc) none

/-- payload[k].as_str(): the string content when the value is an object
carrying a string at k, none otherwise (indexing a non-object gives Null). -/
def jsonIndexStr (v : Json) (k : String) : Option (List Byte) :=
  match v with
  | .jobj kvs =>
    match objLookupLast kvs (asciiBytes k) with
    | some (.jstr s) => some s
    | _ => none
  | _ => none

/-- hex::decode: even-length hex string (both cases) to bytes. -/
def hexDecode : List Byte → Option (List Byte)
  | [] => some []
  | [_] => none
  | a :: b :: rest =>
    match hexValB a, hexValB b with
    | some x, some y => (fun t => Fin.ofNat' 256 (16 * x + y) :: t) <$> hexDecode rest
    | _, _ => none

/-- The all-zero 32-byte key used as decode fallback. -/
def zero32 : List Byte := List.replicate 32 0

/-- The relay's key extraction from a Connect payload value:
payload[k].as_str().unwrap_or("") hex-decoded and converted to 32 bytes,
with [0u8; 32] on any failure. -/
def keyFromHexField (v : Json) (k : String) : List Byte :=
  match hexDecode ((jsonIndexStr v k).getD []) with
  | some bs => if bs.length = 32 then bs else zero32
  | none => zero32

/-! ## Relay core (src/relay.rs)

OpacusRelayServer holds a port, the agent table (DashMap String ->
ConnectedAgent), the offline queue (DashMap String -> Vec of frames) and a
shutdown channel; it owns no key-exchange key pair of any kind.  The tables
are modelled as association lists; the quinn Connection handle becomes an
opaque connection identifier, and a transmitted datagram is recorded as
(connection id, frame) — the bytes on the wire are CBORCodec::encode of the
frame, whose encoding cannot fail for this record (see the codec section).
handleFrame is the body of the per-datagram loop of handle_connection for
one successfully decoded frame. -/

structure ConnectedAgent where
  id : String
  connection : Nat
  ed_pub : List Byte
  x_pub : List Byte
  last_seen : Nat
deriving DecidableEq, Repr

/-- Map lookup in an association-list table. -/
def lookupAssoc {α : Type} : List (String × α) → String → Option α
  | [], _ => none
  | (k, v) :: rest, key => if k = key then some v else lookupAssoc rest key

/-- DashMap::insert: replace the entry for the key, or add one. -/
def insertAssoc {α : Type} : List (String × α) → String → α → List (String × α)
  | [], key, v => [(key, v)]
  | (k, w) :: rest, key, v =>
    if k = key then (key, v) :: rest else (k, w) :: insertAssoc rest key v

/-- DashMap::remove: the removed value (if any) and the remaining table. -/
def removeAssoc {α : Type} : List (String × α) → String → Option α × List (String × α)
  | [], _ => (none, [])
  | (k, v) :: rest, key =>
    if k = key then (some v, rest)
    else
      let r := removeAssoc rest key
      (r.1, (k, v) :: r.2)

/-- pending.entry(to).or_insert_with(Vec::new).push(frame). -/
def pushPending : List (String × List OpacusFrame) → String → OpacusFrame →
    List (String × List OpacusFrame)
  | [], key, f => [(key, [f])]
  | (k, fs) :: rest, key, f =>
    if k = key then (k, fs ++ [f]) :: rest else (k, fs) :: pushPending rest key f

/-- OpacusRelayServer::route_frame: transmit to a connected recipient, else
append to the offline queue.  Returns the datagrams sent and the new queue. -/
def route_frame (agents : List (String × ConnectedAgent))
    (pending : List (String × List OpacusFrame)) (f : OpacusFrame) :
    List (Nat × OpacusFrame) × List (String × List OpacusFrame) :=
  match lookupAssoc agents f.to_ with
  | some agent => ([(agent.connection, f)], pending)
  | none => ([], pushPending pending f.to_ f)

/-- Re-route a list of flushed frames in order, accumulating sends. -/
def routeAll (agents : List (String × ConnectedAgent))
    (pending : List (String × List OpacusFrame)) (msgs : List OpacusFrame) :
    List (Nat × OpacusFrame) × List (String × List OpacusFrame) :=
  msgs.foldl (fun acc m =>
    let r := route_frame agents acc.2 m
    (acc.1 ++ r.1, r.2)) ([], pending)

/-- Result of processing one decoded frame in handle_connection. -/
structure RelayStep where
  agents : List (String × ConnectedAgent)
  pending : List (String × List OpacusFrame)
  agent_id : Option String
  sent : List (Nat × OpacusFrame)
deriving DecidableEq, Repr

/-- One iteration of the relay's per-connection loop on a decoded frame f
arriving on connection conn: a Connect frame (re)registers the sender —
only when its payload parses as JSON — sends the Ack and flushes that
sender's offline queue; any other frame is routed. -/
def handleFrame (agents : List (String × ConnectedAgent))
    (pending : List (String × List OpacusFrame)) (agent_id : Option String)
    (f : OpacusFrame) (conn : Nat) (now_ms now_sec : Nat) : RelayStep :=
  if f.frame_type = .connect then
    let agent_id' := some f.from_
    match parseJson f.payload with
    | some payload =>
      let ed_pub := keyFromHexField payload "edPub"
      let x_pub := keyFromHexField payload "xPub"
      let agents' := insertAssoc agents f.from_
        { id := f.from_, connection := conn, ed_pub := ed_pub, x_pub := x_pub,
          last_seen := now_sec }
      let ack : OpacusFrame :=
        { version := 1, frame_type := .ack, from_ := "relay", to_ := f.from_, seq := 0,
          ts := now_ms % 2 ^ 64, nonce := "", payload := [], hmac := none, sig := none }
      match removeAssoc pending f.from_ with
      | (some msgs, pending') =>
        let fl := routeAll agents' pending' msgs
        { agents := agents', pending := fl.2, agent_id := agent_id',
          sent := (conn, ack) :: fl.1 }
      | (none, pending') =>
        { agents := agents', pending := pending', agent_id := agent_id',
          sent := [(conn, ack)] }
    | none => { agents := agents, pending := pending, agent_id := agent_id', sent := [] }
  else
    let r := route_frame agents pending f
    { agents := agents, pending := r.2, agent_id := agent_id, sent := r.1 }

/-- OpacusRelayServer::get_pending_count. -/
def get_pending_count (pending : List (String × List OpacusFrame)) : Nat :=
  (pending.map (fun e => e.2.length)).sum

/-! ## Relay lemmas and claims

Frames below are often written with the anonymous constructor; the field
order of OpacusFrame is version, frame_type, from, to, seq, ts, nonce,
payload, hmac, sig, and that of ConnectedAgent is id, connection, ed_pub,
x_pub, last_seen. -/

theorem lookupAssoc_insert_self {α : Type} (l : List (String × α)) (k : String) (v : α) :
    lookupAssoc (insertAssoc l k v) k = some v := by
  induction l with
  | nil => simp [insertAssoc, lookupAssoc]
  | cons e rest ih =>
    by_cases h : e.1 = k
    · simp [insertAssoc, h, lookupAssoc]
    · simp [insertAssoc, h, lookupAssoc, ih]

theorem lookupAssoc_pushPending (pending : List (String × List OpacusFrame)) (k : String)
    (f : OpacusFrame) :
    lookupAssoc (pushPending pending k f) k =
      some ((lookupAssoc pending k).getD [] ++ [f]) := by
  induction pending with
  | nil => simp [pushPending, lookupAssoc]
  | cons e rest ih =>
    by_cases h : e.1 = k
    · simp [pushPending, h, lookupAssoc]
    · simp [pushPending, h, lookupAssoc, ih]

/-- The Connect frame used as a concrete input in several places below: from
agent a, with the two-byte payload of an open and a close brace (the empty
JSON object, which parses successfully). -/
def connectA : OpacusFrame :=
  ⟨1, .connect, "a", "relay", 0, 0, "", [123, 125], none, none⟩

/-- Claim C2 (the spec requires relayXPub in the Ack payload whenever the
relay has a key pair; the relay owns no key-exchange key pair at all and
always sends the Ack with empty payload): evaluating the relay on a Connect
frame from a fresh state shows the Ack goes out with payload = [] — no
relayXPub is ever populated, so the client plane that depends on it derives
its session key from a zero relay key. -/
theorem connect_ack_payload_always_empty :
    (handleFrame [] [] none connectA 7 5 6).sent =
      [(7, ⟨1, .ack, "relay", "a", 0, 5, "", [], none, none⟩)] := by
  decide

/-- Claim C3, counterexample: a Connect frame whose payload is not valid
JSON (here: empty bytes) is processed with NO agent-record insertion and NO
Ack — contradicting the claim that the insert and Ack happen regardless of
whether the payload parses as JSON.  Only agent_id is set. -/
theorem connect_unparseable_payload_counterexample :
    (handleFrame [] [] none ⟨1, .connect, "a", "relay", 0, 0, "", [], none, none⟩
      7 5 6).agents = [] ∧
    (handleFrame [] [] none ⟨1, .connect, "a", "relay", 0, 0, "", [], none, none⟩
      7 5 6).sent = [] := by
  constructor <;> decide

/-- Claim C3, amended: for every Connect frame whose payload parses as JSON
(whatever JSON value it is), the relay inserts (or replaces) the
Connected-Agent record keyed by frame.from — with the public keys decoded
from the payload, zero on decode failure — and the first datagram it sends
back is the Ack frame with type Ack, from relay, to that agent, seq 0,
ts now, empty nonce and payload, no hmac and no sig.  A Connect frame whose
payload is not valid JSON causes neither. -/
theorem connect_registers_and_acks (agents : List (String × ConnectedAgent))
    (pending : List (String × List OpacusFrame)) (aid : Option String) (f : OpacusFrame)
    (conn now_ms now_sec : Nat) (v : Json)
    (hc : f.frame_type = .connect) (hp : parseJson f.payload = some v) :
    (handleFrame agents pending aid f conn now_ms now_sec).agents =
      insertAssoc agents f.from_
        ⟨f.from_, conn, keyFromHexField v "edPub", keyFromHexField v "xPub", now_sec⟩ ∧
    (handleFrame agents pending aid f conn now_ms now_sec).agent_id = some f.from_ ∧
    (handleFrame agents pending aid f conn now_ms now_sec).sent.head? =
      some (conn, ⟨1, .ack, "relay", f.from_, 0, now_ms % 2 ^ 64, "", [], none, none⟩) := by
  unfold handleFrame
  rw [if_pos hc, hp]
  dsimp only
  rcases hrm : removeAssoc pending f.from_ with ⟨o, pending2⟩
  cases o <;> simp

/-- Witness for the amended C3 theorem: the concrete Connect frame with the
empty-object payload. -/
theorem connect_registers_and_acks_witness :
    (connectA.frame_type = .connect ∧ parseJson connectA.payload = some (Json.jobj [])) ∧
    ((handleFrame [] [] none connectA 7 5 6).agents =
      insertAssoc [] connectA.from_
        ⟨connectA.from_, 7, keyFromHexField (Json.jobj []) "edPub",
          keyFromHexField (Json.jobj []) "xPub", 6⟩ ∧
    (handleFrame [] [] none connectA 7 5 6).agent_id = some connectA.from_ ∧
    (handleFrame [] [] none connectA 7 5 6).sent.head? =
      some (7, ⟨1, .ack, "relay", connectA.from_, 0, 5 % 2 ^ 64, "", [], none, none⟩)) :=
  ⟨⟨rfl, rfl⟩, connect_registers_and_acks [] [] none connectA 7 5 6 (Json.jobj []) rfl rfl⟩

/-- A concrete Msg frame from a to b with sequence number n. -/
def msgF (n : Nat) : OpacusFrame :=
  ⟨1, .msg, "a", "b", n, 0, "", [], none, none⟩

/-- Agent b's Connect frame with the empty-object payload. -/
def connectB : OpacusFrame :=
  ⟨1, .connect, "b", "relay", 0, 0, "", [123, 125], none, none⟩

/-- Agent b's Connect frame with an unparseable (empty) payload. -/
def connectBbad : OpacusFrame :=
  ⟨1, .connect, "b", "relay", 0, 0, "", [], none, none⟩

/-- Claim C5, counterexample: a message for offline agent b is queued; b
then connects with a payload that is not valid JSON.  The claim promises the
queue entry is drained on processing b's Connect, with pending count zero
afterwards — but nothing is delivered and the count stays 1. -/
theorem offline_queue_no_drain_counterexample :
    (handleFrame (handleFrame [] [] none (msgF 1) 3 0 0).agents
      (handleFrame [] [] none (msgF 1) 3 0 0).pending none connectBbad 9 0 0).sent = [] ∧
    get_pending_count (handleFrame (handleFrame [] [] none (msgF 1) 3 0 0).agents
      (handleFrame [] [] none (msgF 1) 3 0 0).pending none connectBbad 9 0 0).pending
      = 1 := by
  constructor <;> decide

/-- Claim C5, amended: frames f1 f2 f3 routed in that order to recipient B,
absent from the agent table and with an empty offline queue, are appended to
B's queue entry in order; when B's Connect — with a payload that parses as
JSON — is next processed, the entry is removed, the Ack goes out first, the
queued frames are re-transmitted to B's connection in insertion order
f1 f2 f3, and get_pending_count is zero after the drain. -/
theorem offline_queue_drain_order (agents : List (String × ConnectedAgent))
    (aid : Option String) (f1 f2 f3 c : OpacusFrame) (B : String)
    (conn1 conn2 conn3 connB : Nat) (t1 t2 t3 tc s1 s2 s3 sc : Nat) (v : Json)
    (st1 st2 st3 st4 : RelayStep)
    (hB : lookupAssoc agents B = none)
    (h1 : f1.to_ = B) (h2 : f2.to_ = B) (h3 : f3.to_ = B)
    (hn1 : ¬ f1.frame_type = .connect) (hn2 : ¬ f2.frame_type = .connect)
    (hn3 : ¬ f3.frame_type = .connect)
    (hc : c.frame_type = .connect) (hcf : c.from_ = B)
    (hp : parseJson c.payload = some v)
    (hst1 : st1 = handleFrame agents [] aid f1 conn1 t1 s1)
    (hst2 : st2 = handleFrame st1.agents st1.pending st1.agent_id f2 conn2 t2 s2)
    (hst3 : st3 = handleFrame st2.agents st2.pending st2.agent_id f3 conn3 t3 s3)
    (hst4 : st4 = handleFrame st3.agents st3.pending st3.agent_id c connB tc sc) :
    st4.sent = [(connB, ⟨1, .ack, "relay", B, 0, tc % 2 ^ 64, "", [], none, none⟩),
      (connB, f1), (connB, f2), (connB, f3)] ∧
    st4.pending = [] ∧ get_pending_count st4.pending = 0 := by
  have e1 : st1 = ⟨agents, [(B, [f1])], aid, []⟩ := by
    rw [hst1]
    unfold handleFrame
    rw [if_neg hn1]
    unfold route_frame
    rw [h1, hB]
    simp [pushPending]
  have e2 : st2 = ⟨agents, [(B, [f1, f2])], aid, []⟩ := by
    rw [hst2, e1]
    unfold handleFrame
    rw [if_neg hn2]
    unfold route_frame
    rw [h2, hB]
    simp [pushPending]
  have e3 : st3 = ⟨agents, [(B, [f1, f2, f3])], aid, []⟩ := by
    rw [hst3, e2]
    unfold handleFrame
    rw [if_neg hn3]
    unfold route_frame
    rw [h3, hB]
    simp [pushPending]
  have hlook : ∀ g : OpacusFrame, g.to_ = B →
      lookupAssoc (insertAssoc agents B
        ⟨B, connB, keyFromHexField v "edPub", keyFromHexField v "xPub", sc⟩) g.to_ =
      some ⟨B, connB, keyFromHexField v "edPub", keyFromHexField v "xPub", sc⟩ := by
    intro g hg
    rw [hg]
    exact lookupAssoc_insert_self agents B _
  rw [hst4, e3]
  unfold handleFrame
  rw [if_pos hc, hp]
  dsimp only
  rw [hcf]
  rw [show removeAssoc [(B, [f1, f2, f3])] B = (some [f1, f2, f3], []) by
    simp [removeAssoc]]
  dsimp only
  unfold routeAll
  simp only [List.foldl_cons, List.foldl_nil]
  unfold route_frame
  rw [hlook f1 h1, hlook f2 h2, hlook f3 h3]
  simp [get_pending_count]

/-- Relay states of the concrete C5 drain scenario. -/
def st1c : RelayStep := ⟨[], [("b", [msgF 1])], none, []⟩

def st2c : RelayStep := ⟨[], [("b", [msgF 1, msgF 2])], none, []⟩

def st3c : RelayStep := ⟨[], [("b", [msgF 1, msgF 2, msgF 3])], none, []⟩

def st4c : RelayStep :=
  ⟨[("b", ⟨"b", 9, zero32, zero32, 0⟩)], [], some "b",
    [(9, ⟨1, .ack, "relay", "b", 0, 0, "", [], none, none⟩),
      (9, msgF 1), (9, msgF 2), (9, msgF 3)]⟩

/-- Witness for the amended C5 theorem on concrete frames and states. -/
theorem offline_queue_drain_order_witness :
    (lookupAssoc ([] : List (String × ConnectedAgent)) "b" = none ∧
      (msgF 1).to_ = "b" ∧ (msgF 2).to_ = "b" ∧ (msgF 3).to_ = "b" ∧
      ¬ (msgF 1).frame_type = .connect ∧ ¬ (msgF 2).frame_type = .connect ∧
      ¬ (msgF 3).frame_type = .connect ∧
      connectB.frame_type = .connect ∧ connectB.from_ = "b" ∧
      parseJson connectB.payload = some (Json.jobj []) ∧
      st1c = handleFrame [] [] none (msgF 1) 3 0 0 ∧
      st2c = handleFrame st1c.agents st1c.pending st1c.agent_id (msgF 2) 3 0 0 ∧
      st3c = handleFrame st2c.agents st2c.pending st2c.agent_id (msgF 3) 3 0 0 ∧
      st4c = handleFrame st3c.agents st3c.pending st3c.agent_id connectB 9 0 0) ∧
    (st4c.sent = [(9, ⟨1, .ack, "relay", "b", 0, 0 % 2 ^ 64, "", [], none, none⟩),
        (9, msgF 1), (9, msgF 2), (9, msgF 3)] ∧
      st4c.pending = [] ∧ get_pending_count st4c.pending = 0) :=
  ⟨⟨rfl, rfl, rfl, rfl, by decide, by decide, by decide, rfl, rfl, rfl,
    by decide, by decide, by decide, by decide⟩,
   offline_queue_drain_order [] none (msgF 1) (msgF 2) (msgF 3) connectB "b" 3 3 3 9
     0 0 0 0 0 0 0 0 (Json.jobj []) st1c st2c st3c st4c rfl rfl rfl rfl
     (by decide) (by decide) (by decide) rfl rfl rfl (by decide) (by decide) (by decide)
     (by decide)⟩

/-- Claim C6: routing is opaque.  Every frame the router transmits is the
received frame itself (payload, hmac, sig, nonce, from, ts and seq all
unchanged — the datagram bytes are its unmodified encoding), and a frame
stored for an absent recipient is appended verbatim to that recipient's
queue entry. -/
theorem route_frame_opaque (agents : List (String × ConnectedAgent))
    (pending : List (String × List OpacusFrame)) (f : OpacusFrame) :
    (∀ p ∈ (route_frame agents pending f).1,
      p.2.payload = f.payload ∧ p.2.hmac = f.hmac ∧ p.2.sig = f.sig ∧
      p.2.nonce = f.nonce ∧ p.2.from_ = f.from_ ∧ p.2.ts = f.ts ∧ p.2.seq = f.seq) ∧
    (lookupAssoc agents f.to_ = none →
      lookupAssoc (route_frame agents pending f).2 f.to_ =
        some ((lookupAssoc pending f.to_).getD [] ++ [f])) := by
  unfold route_frame
  cases hl : lookupAssoc agents f.to_ with
  | some agent =>
    constructor
    · intro p hp
      have hpf : p = (agent.connection, f) := by simpa using hp
      rw [hpf]
      exact ⟨rfl, rfl, rfl, rfl, rfl, rfl, rfl⟩
    · intro hn
      exact Option.noConfusion hn
  | none =>
    constructor
    · intro p hp
      simp at hp
    · intro _
      exact lookupAssoc_pushPending pending f.to_ f

/-- Witness for the C6 theorem at a concrete input. -/
theorem route_frame_opaque_witness :
    (∀ p ∈ (route_frame [] [] (msgF 1)).1,
      p.2.payload = (msgF 1).payload ∧ p.2.hmac = (msgF 1).hmac ∧ p.2.sig = (msgF 1).sig ∧
      p.2.nonce = (msgF 1).nonce ∧ p.2.from_ = (msgF 1).from_ ∧ p.2.ts = (msgF 1).ts ∧
      p.2.seq = (msgF 1).seq) ∧
    (lookupAssoc ([] : List (String × ConnectedAgent)) (msgF 1).to_ = none →
      lookupAssoc (route_frame [] [] (msgF 1)).2 (msgF 1).to_ =
        some ((lookupAssoc ([] : List (String × List OpacusFrame)) (msgF 1).to_).getD []
          ++ [msgF 1])) :=
  route_frame_opaque [] [] (msgF 1)

/-- Claim C9, counterexample: nothing prevents a client from registering
under the id relay — a Connect frame with from = relay inserts the key
relay into the agent table, refuting the claim's assertion that relay never
appears there (after which frames addressed to relay are transmitted to that
impostor rather than queued). -/
theorem relay_id_in_agent_table_counterexample :
    lookupAssoc (handleFrame [] [] none
      ⟨1, .connect, "relay", "x", 0, 0, "", [123, 125], none, none⟩ 7 0 0).agents "relay" =
    some ⟨"relay", 7, zero32, zero32, 0⟩ := by
  decide

/-- Claim C9, amended: for every non-Connect frame whose recipient is not a
key of the agent table — including a frame addressed to the literal relay
whenever no agent has registered under that id (the relay itself never
inserts it, though a client Connect with from = relay would) — the relay
appends the frame verbatim to the offline queue under frame.to and sends
nothing: the router never discards a frame whose recipient is absent. -/
theorem route_absent_recipient_queued (agents : List (String × ConnectedAgent))
    (pending : List (String × List OpacusFrame)) (aid : Option String) (f : OpacusFrame)
    (conn now_ms now_sec : Nat)
    (hnc : ¬ f.frame_type = .connect) (habs : lookupAssoc agents f.to_ = none) :
    handleFrame agents pending aid f conn now_ms now_sec =
      ⟨agents, pushPending pending f.to_ f, aid, []⟩ ∧
    lookupAssoc (pushPending pending f.to_ f) f.to_ =
      some ((lookupAssoc pending f.to_).getD [] ++ [f]) := by
  constructor
  · unfold handleFrame
    rw [if_neg hnc]
    unfold route_frame
    rw [habs]
  · exact lookupAssoc_pushPending pending f.to_ f

/-- The concrete Ping frame addressed to relay for the C9 witness. -/
def pingToRelay : OpacusFrame :=
  ⟨1, .ping, "a", "relay", 1, 0, "", [], none, none⟩

/-- Witness for the amended C9 theorem: a Ping frame addressed to relay on a
fresh relay (no agent registered under that id) is queued, not dropped. -/
theorem route_absent_recipient_queued_witness :
    (¬ pingToRelay.frame_type = .connect ∧
      lookupAssoc ([] : List (String × ConnectedAgent)) pingToRelay.to_ = none) ∧
    (handleFrame [] [] none pingToRelay 4 0 0 =
        ⟨[], pushPending [] pingToRelay.to_ pingToRelay, none, []⟩ ∧
      lookupAssoc (pushPending [] pingToRelay.to_ pingToRelay) pingToRelay.to_ =
        some ((lookupAssoc ([] : List (String × List OpacusFrame)) pingToRelay.to_).getD []
          ++ [pingToRelay])) :=
  ⟨⟨by decide, rfl⟩,
   route_absent_recipient_queued [] [] none pingToRelay 4 0 0 (by decide) rfl⟩

/-! ## UTF-8 (Rust String contents on the wire)

serde_cbor text strings carry the UTF-8 bytes of the Rust String.  The
encoder below is standard UTF-8 over the code points; the decoder validates
lengths, continuation ranges, overlong forms, surrogates and the code-point
ceiling. -/

theorem char_not_surrogate (c : Char) : ¬ (55296 ≤ c.toNat ∧ c.toNat < 57344) := by
  have h := c.valid
  rcases h with h | ⟨h1, -⟩
  · have : c.val.toNat < 55296 := h
    simp only [Char.toNat]
    omega
  · have : 57344 ≤ c.val.toNat := h1
    simp only [Char.toNat]
    omega

theorem ofNat256_eq_mk (v : Nat) (h : v < 256) : Fin.ofNat' 256 v = ⟨v, h⟩ :=
  Fin.ext (by simp [Fin.ofNat', Nat.mod_eq_of_lt h])

/-- UTF-8 bytes of a string (str::as_bytes of the Rust String). -/
def utf8Encode (s : String) : List Byte :=
  (s.data.map (fun c => utf8Bytes c.toNat)).flatten

/-- Decode one UTF-8 character from a byte stream. -/
def utf8DecodeChar : List Byte → Option (Char × List Byte)
  | [] => none
  | b0 :: r0 =>
    if b0.val < 128 then some (Char.ofNat b0.val, r0)
    else if b0.val < 192 then none
    else if b0.val < 224 then
      match r0 with
      | b1 :: r1 =>
        if 128 ≤ b1.val ∧ b1.val < 192 then
          let n := (b0.val - 192) * 64 + (b1.val - 128)
          if 128 ≤ n then some (Char.ofNat n, r1) else none
        else none
      | [] => none
    else if b0.val < 240 then
      match r0 with
      | b1 :: b2 :: r2 =>
        if (128 ≤ b1.val ∧ b1.val < 192) ∧ (128 ≤ b2.val ∧ b2.val < 192) then
          let n := (b0.val - 224) * 4096 + (b1.val - 128) * 64 + (b2.val - 128)
          if 2048 ≤ n ∧ ¬ (55296 ≤ n ∧ n < 57344) then some (Char.ofNat n, r2) else none
        else none
      | _ => none
    else if b0.val < 248 then
      match r0 with
      | b1 :: b2 :: b3 :: r3 =>
        if (128 ≤ b1.val ∧ b1.val < 192) ∧ (128 ≤ b2.val ∧ b2.val < 192) ∧
            (128 ≤ b3.val ∧ b3.val < 192) then
          let n := (b0.val - 240) * 262144 + (b1.val - 128) * 4096 + (b2.val - 128) * 64 +
            (b3.val - 128)
          if 65536 ≤ n ∧ n < 1114112 then some (Char.ofNat n, r3) else none
        else none
      | _ => none
    else none

theorem utf8Bytes_ne_nil (n : Nat) : utf8Bytes n ≠ [] := by
  unfold utf8Bytes
  split
  · simp
  · split
    · simp
    · split <;> simp

theorem utf8DecodeChar_encode (c : Char) (r : List Byte) :
    utf8DecodeChar (utf8Bytes c.toNat ++ r) = some (c, r) := by
  have hlt := char_toNat_lt_size c
  have hsur := char_not_surrogate c
  unfold utf8Bytes
  by_cases h1 : c.toNat < 128
  · rw [if_pos h1, ofNat256_eq_mk _ (by omega)]
    unfold utf8DecodeChar
    simp only [List.cons_append, List.nil_append]
    rw [if_pos (show (⟨c.toNat, by omega⟩ : Byte).val < 128 from h1)]
    rw [Char.ofNat_toNat]
  · rw [if_neg h1]
    by_cases h2 : c.toNat < 2048
    · rw [if_pos h2, ofNat256_eq_mk _ (by omega), ofNat256_eq_mk _ (by omega)]
      unfold utf8DecodeChar
      simp only [List.cons_append, List.nil_append]
      rw [if_neg (by (try simp only [Fin.val_mk]); omega), if_neg (by (try simp only [Fin.val_mk]); omega), if_pos (by (try simp only [Fin.val_mk]); omega)]
      rw [if_pos (by constructor <;> ((try simp only [Fin.val_mk]); omega))]
      have hn : ((⟨192 + c.toNat / 64, by omega⟩ : Byte).val - 192) * 64 +
          ((⟨128 + c.toNat % 64, by omega⟩ : Byte).val - 128) = c.toNat := by
        try simp only [Fin.val_mk]
        omega
      rw [hn, if_pos (by omega), Char.ofNat_toNat]
    · rw [if_neg h2]
      by_cases h3 : c.toNat < 65536
      · rw [if_pos h3, ofNat256_eq_mk _ (by omega), ofNat256_eq_mk _ (by omega),
          ofNat256_eq_mk _ (by omega)]
        unfold utf8DecodeChar
        simp only [List.cons_append, List.nil_append]
        rw [if_neg (by (try simp only [Fin.val_mk]); omega), if_neg (by (try simp only [Fin.val_mk]); omega), if_neg (by (try simp only [Fin.val_mk]); omega),
          if_pos (by (try simp only [Fin.val_mk]); omega)]
        rw [if_pos (by constructor <;> constructor <;> ((try simp only [Fin.val_mk]); omega))]
        have hn : ((⟨224 + c.toNat / 4096, by omega⟩ : Byte).val - 224) * 4096 +
            ((⟨128 + c.toNat / 64 % 64, by omega⟩ : Byte).val - 128) * 64 +
            ((⟨128 + c.toNat % 64, by omega⟩ : Byte).val - 128) = c.toNat := by
          try simp only [Fin.val_mk]
          omega
        rw [hn, if_pos (by omega), Char.ofNat_toNat]
      · rw [if_neg h3]
        rw [ofNat256_eq_mk _ (by omega), ofNat256_eq_mk _ (by omega),
          ofNat256_eq_mk _ (by omega), ofNat256_eq_mk _ (by omega)]
        unfold utf8DecodeChar
        simp only [List.cons_append, List.nil_append]
        rw [if_neg (by (try simp only [Fin.val_mk]); omega), if_neg (by (try simp only [Fin.val_mk]); omega), if_neg (by (try simp only [Fin.val_mk]); omega),
          if_neg (by (try simp only [Fin.val_mk]); omega), if_pos (by (try simp only [Fin.val_mk]); omega)]
        rw [if_pos (by refine ⟨⟨?_, ?_⟩, ⟨?_, ?_⟩, ?_, ?_⟩ <;> ((try simp only [Fin.val_mk]); omega))]
        have hn : ((⟨240 + c.toNat / 262144, by omega⟩ : Byte).val - 240) * 262144 +
            ((⟨128 + c.toNat / 4096 % 64, by omega⟩ : Byte).val - 128) * 4096 +
            ((⟨128 + c.toNat / 64 % 64, by omega⟩ : Byte).val - 128) * 64 +
            ((⟨128 + c.toNat % 64, by omega⟩ : Byte).val - 128) = c.toNat := by
          try simp only [Fin.val_mk]
          omega
        rw [hn, if_pos (by omega), Char.ofNat_toNat]

/-- Decode a whole byte list as UTF-8 (fuel bounds the character count). -/
def utf8DecodeAll : Nat → List Byte → Option (List Char)
  | _, [] => some []
  | 0, _ :: _ => none
  | fuel + 1, b :: bs =>
    match utf8DecodeChar (b :: bs) with
    | some (c, rest) => (fun cs => c :: cs) <$> utf8DecodeAll fuel rest
    | none => none

theorem utf8DecodeAll_encode (cs : List Char) : ∀ fuel : Nat,
    ((cs.map (fun c => utf8Bytes c.toNat)).flatten).length ≤ fuel →
    utf8DecodeAll fuel ((cs.map (fun c => utf8Bytes c.toNat)).flatten) = some cs := by
  induction cs with
  | nil =>
    intro fuel _
    simp only [List.map_nil, List.flatten_nil]
    cases fuel <;> rfl
  | cons c t ih =>
    intro fuel hf
    simp only [List.map_cons, List.flatten_cons] at hf ⊢
    have hne := utf8Bytes_ne_nil c.toNat
    rcases he : utf8Bytes c.toNat with _ | ⟨b, bs⟩
    · exact absurd he hne
    · rw [he] at hf
      simp only [List.cons_append, List.length_cons, List.length_append] at hf
      cases fuel with
      | zero => omega
      | succ f =>
        show utf8DecodeAll (f + 1)
          (b :: (bs ++ (t.map (fun c => utf8Bytes c.toNat)).flatten)) = _
        unfold utf8DecodeAll
        have hdec := utf8DecodeChar_encode c ((t.map (fun c => utf8Bytes c.toNat)).flatten)
        rw [he] at hdec
        simp only [List.cons_append] at hdec
        rw [hdec]
        dsimp only
        rw [ih f (by omega)]
        rfl

/-! ## CBOR frame codec (src/proto.rs with serde_cbor, src/types.rs derives)

serde_cbor::to_vec serializes OpacusFrame as a definite-length CBOR map of
10 text keys in declaration order (frame_type renamed to type and written as
its lowercase wire name), with u8/u64 as minimal-width unsigned heads,
String as a text string, Vec of u8 as an array of unsigned integers (no
serde_bytes in the source), and Option as null or the bare value.  The
decoder below reads that map back, accepting any head widths and checking
the u8/u64 ranges and full input consumption exactly as serde does.  It
reads the ten keys in declaration order — the order every encoder conformant
to this struct emits and the only order decode(encode f) exercises; serde's
deserializer additionally accepts permuted or unknown keys, which no claim
here touches. -/

/-- CBOR head (initial byte plus argument) for a major type and a u64 value,
minimal width, as written by serde_cbor. -/
def cborHead (major n : Nat) : List Byte :=
  if n < 24 then [Fin.ofNat' 256 (32 * major + n)]
  else if n < 256 then [Fin.ofNat' 256 (32 * major + 24), Fin.ofNat' 256 n]
  else if n < 65536 then
    [Fin.ofNat' 256 (32 * major + 25), Fin.ofNat' 256 (n / 256), Fin.ofNat' 256 (n % 256)]
  else if n < 4294967296 then
    [Fin.ofNat' 256 (32 * major + 26), Fin.ofNat' 256 (n / 16777216),
     Fin.ofNat' 256 (n / 65536 % 256), Fin.ofNat' 256 (n / 256 % 256),
     Fin.ofNat' 256 (n % 256)]
  else
    [Fin.ofNat' 256 (32 * major + 27), Fin.ofNat' 256 (n / 72057594037927936 % 256),
     Fin.ofNat' 256 (n / 281474976710656 % 256), Fin.ofNat' 256 (n / 1099511627776 % 256),
     Fin.ofNat' 256 (n / 4294967296 % 256), Fin.ofNat' 256 (n / 16777216 % 256),
     Fin.ofNat' 256 (n / 65536 % 256), Fin.ofNat' 256 (n / 256 % 256),
     Fin.ofNat' 256 (n % 256)]

/-- CBOR text string: head with byte length, then UTF-8 bytes. -/
def cborText (s : String) : List Byte :=
  cborHead 3 (utf8Encode s).length ++ utf8Encode s

/-- CBOR encoding of Vec of u8: an array of unsigned integers. -/
def cborArr (v : List Byte) : List Byte :=
  cborHead 4 v.length ++ (v.map (fun b => cborHead 0 b.val)).flatten

/-- CBOR null. -/
def cborNull : List Byte := [⟨246, by omega⟩]

/-- serde Option of String: null or the bare text. -/
def cborOptText : Option String → List Byte
  | none => cborNull
  | some h => cborText h

/-- serde Option of Vec of u8: null or the bare array. -/
def cborOptArr : Option (List Byte) → List Byte
  | none => cborNull
  | some v => cborArr v

/-- CBORCodec::encode of a frame (serde_cbor::to_vec).  This encoding never
fails for this record, so the Result wrapper of the source is dropped. -/
def encodeFrame (f : OpacusFrame) : List Byte :=
  cborHead 5 10 ++
  cborText "version" ++ cborHead 0 f.version ++
  cborText "type" ++ cborText f.frame_type.wireStr ++
  cborText "from" ++ cborText f.from_ ++
  cborText "to" ++ cborText f.to_ ++
  cborText "seq" ++ cborHead 0 f.seq ++
  cborText "ts" ++ cborHead 0 f.ts ++
  cborText "nonce" ++ cborText f.nonce ++
  cborText "payload" ++ cborArr f.payload ++
  cborText "hmac" ++ cborOptText f.hmac ++
  cborText "sig" ++ cborOptArr f.sig

/-- Read a CBOR head: major type, argument value, rest (any head width). -/
def readHead : List Byte → Option (Nat × Nat × List Byte)
  | [] => none
  | b :: rest =>
    if b.val % 32 < 24 then some (b.val / 32, b.val % 32, rest)
    else if b.val % 32 = 24 then
      match rest with
      | x :: r => some (b.val / 32, x.val, r)
      | [] => none
    else if b.val % 32 = 25 then
      match rest with
      | x :: y :: r => some (b.val / 32, 256 * x.val + y.val, r)
      | _ => none
    else if b.val % 32 = 26 then
      match rest with
      | x :: y :: z :: w :: r =>
        some (b.val / 32, 16777216 * x.val + 65536 * y.val + 256 * z.val + w.val, r)
      | _ => none
    else if b.val % 32 = 27 then
      match rest with
      | x1 :: x2 :: x3 :: x4 :: x5 :: x6 :: x7 :: x8 :: r =>
        some (b.val / 32, 72057594037927936 * x1.val + 281474976710656 * x2.val +
          1099511627776 * x3.val + 4294967296 * x4.val + 16777216 * x5.val +
          65536 * x6.val + 256 * x7.val + x8.val, r)
      | _ => none
    else none

/-- Read an unsigned integer (major type 0). -/
def readUIntV (bs : List Byte) : Option (Nat × List Byte) :=
  match readHead bs with
  | some (0, v, rest) => some (v, rest)
  | _ => none

/-- Read a text string (major type 3) with valid UTF-8 content. -/
def readText (bs : List Byte) : Option (String × List Byte) :=
  match readHead bs with
  | some (3, len, rest) =>
    if len ≤ rest.length then
      match utf8DecodeAll (rest.take len).length (rest.take len) with
      | some cs => some (String.mk cs, rest.drop len)
      | none => none
    else none
  | _ => none

/-- Read k array elements, each an unsigned integer fitting u8. -/
def readByteElems : Nat → List Byte → Option (List Byte × List Byte)
  | 0, bs => some ([], bs)
  | k + 1, bs =>
    match readHead bs with
    | some (0, v, rest) =>
      if h : v < 256 then
        (fun p => ((⟨v, h⟩ : Byte) :: p.1, p.2)) <$> readByteElems k rest
      else none
    | _ => none

/-- Read an array of u8 (major type 4). -/
def readArr (bs : List Byte) : Option (List Byte × List Byte) :=
  match readHead bs with
  | some (4, cnt, rest) => readByteElems cnt rest
  | _ => none

/-- Read an Option of String: null or a text string. -/
def readOptText (bs : List Byte) : Option (Option String × List Byte) :=
  match bs with
  | b :: rest =>
    if b.val = 246 then some (none, rest)
    else (fun p => (some p.1, p.2)) <$> readText (b :: rest)
  | [] => none

/-- Read an Option of Vec of u8: null or an array. -/
def readOptArr (bs : List Byte) : Option (Option (List Byte) × List Byte) :=
  match bs with
  | b :: rest =>
    if b.val = 246 then some (none, rest)
    else (fun p => (some p.1, p.2)) <$> readArr (b :: rest)
  | [] => none

/-- Read a struct key and require it to be the expected field name. -/
def expectKey (k : String) (bs : List Byte) : Option (List Byte) :=
  match readText bs with
  | some (s, r) => if s = k then some r else none
  | none => none

/-- The wire name to FrameType mapping used in deserialization. -/
def frameTypeOfWire (s : String) : Option FrameType :=
  if s = "connect" then some .connect
  else if s = "msg" then some .msg
  else if s = "ping" then some .ping
  else if s = "ack" then some .ack
  else if s = "stream" then some .stream
  else if s = "payment" then some .payment
  else none

/-- Decoder tail: the hmac and sig fields and the end-of-input check. -/
def decodeStep10 (ver : Nat) (t : FrameType) (fr dst : String) (sq tsv : Nat) (nn : String)
    (pl : List Byte) (r8 : List Byte) : Option OpacusFrame :=
  (expectKey "hmac" r8).bind fun r9 =>
  (readOptText r9).bind fun ph =>
  (expectKey "sig" ph.2).bind fun r10 =>
  (readOptArr r10).bind fun pg =>
  if pg.2 = [] then some ⟨ver, t, fr, dst, sq, tsv, nn, pl, ph.1, pg.1⟩ else none

/-- Decoder stage: the nonce and payload fields. -/
def decodeStep7 (ver : Nat) (t : FrameType) (fr dst : String) (sq tsv : Nat)
    (r6 : List Byte) : Option OpacusFrame :=
  (expectKey "nonce" r6).bind fun r7 =>
  (readText r7).bind fun pn =>
  (expectKey "payload" pn.2).bind fun r8 =>
  (readArr r8).bind fun pp =>
  decodeStep10 ver t fr dst sq tsv pn.1 pp.1 pp.2

/-- Decoder stage: the seq and ts fields (u64 values). -/
def decodeStep5 (ver : Nat) (t : FrameType) (fr dst : String) (r4 : List Byte) :
    Option OpacusFrame :=
  (expectKey "seq" r4).bind fun r5 =>
  (readUIntV r5).bind fun ps =>
  (expectKey "ts" ps.2).bind fun r6 =>
  (readUIntV r6).bind fun pts =>
  decodeStep7 ver t fr dst ps.1 pts.1 pts.2

/-- Decoder stage: the from and to fields. -/
def decodeStep3 (ver : Nat) (t : FrameType) (r2 : List Byte) : Option OpacusFrame :=
  (expectKey "from" r2).bind fun r3 =>
  (readText r3).bind fun pf =>
  (expectKey "to" pf.2).bind fun r4 =>
  (readText r4).bind fun pto =>
  decodeStep5 ver t pf.1 pto.1 pto.2

/-- CBORCodec::decode (serde_cbor::from_slice into OpacusFrame): the
10-entry map with the struct's keys, u8/u64 range checks, Option fields by
null peeking, and no trailing bytes. -/
def decodeFrame (bs : List Byte) : Option OpacusFrame :=
  (readHead bs).bind fun h0 =>
  if h0.1 = 5 ∧ h0.2.1 = 10 then
    (expectKey "version" h0.2.2).bind fun r1 =>
    (readUIntV r1).bind fun p1 =>
    if p1.1 < 256 then
      (expectKey "type" p1.2).bind fun r2 =>
      (readText r2).bind fun pt =>
      (frameTypeOfWire pt.1).bind fun t =>
      decodeStep3 p1.1 t pt.2
    else none
  else none

/-- A frame is well formed when its numeric fields fit their machine widths
and its strings and byte vectors fit u64 lengths. -/
def WellFormed (f : OpacusFrame) : Prop :=
  f.version < 256 ∧ f.seq < 2 ^ 64 ∧ f.ts < 2 ^ 64 ∧
  f.payload.length < 2 ^ 64 ∧
  (utf8Encode f.from_).length < 2 ^ 64 ∧ (utf8Encode f.to_).length < 2 ^ 64 ∧
  (utf8Encode f.nonce).length < 2 ^ 64 ∧
  (match f.hmac with
    | none => True
    | some h => (utf8Encode h).length < 2 ^ 64) ∧
  (match f.sig with
    | none => True
    | some s => s.length < 2 ^ 64)

/-! ## Codec round-trip lemmas -/

theorem option_bind_some {α β : Type} (a : α) (f : α → Option β) :
    (some a).bind f = f a := rfl

theorem readHead_cborHead (m n : Nat) (hm : m < 8) (hn : n < 2 ^ 64) (r : List Byte) :
    readHead (cborHead m n ++ r) = some (m, n, r) := by
  unfold cborHead
  by_cases h1 : n < 24
  · rw [if_pos h1, ofNat256_eq_mk _ (by omega)]
    simp only [List.cons_append, List.nil_append]
    unfold readHead
    simp only [Fin.val_mk]
    rw [if_pos (by omega)]
    rw [show (32 * m + n) / 32 = m from by omega, show (32 * m + n) % 32 = n from by omega]
  · rw [if_neg h1]
    by_cases h2 : n < 256
    · rw [if_pos h2, ofNat256_eq_mk _ (by omega), ofNat256_eq_mk _ (by omega)]
      simp only [List.cons_append, List.nil_append]
      unfold readHead
      simp only [Fin.val_mk]
      rw [if_neg (by omega), if_pos (by omega)]
      rw [show (32 * m + 24) / 32 = m from by omega]
    · rw [if_neg h2]
      by_cases h3 : n < 65536
      · rw [if_pos h3, ofNat256_eq_mk _ (by omega), ofNat256_eq_mk _ (by omega),
          ofNat256_eq_mk _ (by omega)]
        simp only [List.cons_append, List.nil_append]
        unfold readHead
        simp only [Fin.val_mk]
        rw [if_neg (by omega), if_neg (by omega), if_pos (by omega)]
        rw [show (32 * m + 25) / 32 = m from by omega,
          show 256 * (n / 256) + n % 256 = n from by omega]
      · rw [if_neg h3]
        by_cases h4 : n < 4294967296
        · rw [if_pos h4, ofNat256_eq_mk _ (by omega), ofNat256_eq_mk _ (by omega),
            ofNat256_eq_mk _ (by omega), ofNat256_eq_mk _ (by omega),
            ofNat256_eq_mk _ (by omega)]
          simp only [List.cons_append, List.nil_append]
          unfold readHead
          simp only [Fin.val_mk]
          rw [if_neg (by omega), if_neg (by omega), if_neg (by omega), if_pos (by omega)]
          rw [show (32 * m + 26) / 32 = m from by omega,
            show 16777216 * (n / 16777216) + 65536 * (n / 65536 % 256) +
              256 * (n / 256 % 256) + n % 256 = n from by omega]
        · rw [if_neg h4]
          rw [ofNat256_eq_mk _ (by omega), ofNat256_eq_mk _ (by omega),
            ofNat256_eq_mk _ (by omega), ofNat256_eq_mk _ (by omega),
            ofNat256_eq_mk _ (by omega), ofNat256_eq_mk _ (by omega),
            ofNat256_eq_mk _ (by omega), ofNat256_eq_mk _ (by omega),
            ofNat256_eq_mk _ (by omega)]
          simp only [List.cons_append, List.nil_append]
          unfold readHead
          simp only [Fin.val_mk]
          rw [if_neg (by omega), if_neg (by omega), if_neg (by omega), if_neg (by omega),
            if_pos (by omega)]
          rw [show (32 * m + 27) / 32 = m from by omega,
            show 72057594037927936 * (n / 72057594037927936 % 256) +
              281474976710656 * (n / 281474976710656 % 256) +
              1099511627776 * (n / 1099511627776 % 256) +
              4294967296 * (n / 4294967296 % 256) + 16777216 * (n / 16777216 % 256) +
              65536 * (n / 65536 % 256) + 256 * (n / 256 % 256) + n % 256 = n from by omega]

theorem readUIntV_cborHead (n : Nat) (hn : n < 2 ^ 64) (r : List Byte) :
    readUIntV (cborHead 0 n ++ r) = some (n, r) := by
  unfold readUIntV
  rw [readHead_cborHead 0 n (by omega) hn r]

theorem readText_cborText (s : String) (r : List Byte)
    (h : (utf8Encode s).length < 2 ^ 64) :
    readText (cborText s ++ r) = some (s, r) := by
  unfold readText cborText
  rw [List.append_assoc, readHead_cborHead 3 _ (by omega) h]
  dsimp only
  rw [if_pos (by simp)]
  rw [List.take_left, List.drop_left]
  try rw [show utf8DecodeAll (utf8Encode s).length (utf8Encode s) = some s.data from
    utf8DecodeAll_encode s.data (utf8Encode s).length le_rfl]
  try rfl

theorem expectKey_self (k : String) (r : List Byte)
    (hk : (utf8Encode k).length < 2 ^ 64) :
    expectKey k (cborText k ++ r) = some r := by
  unfold expectKey
  rw [readText_cborText k r hk]
  dsimp only
  rw [if_pos rfl]

theorem readByteElems_encode (v : List Byte) : ∀ r : List Byte,
    readByteElems v.length ((v.map (fun b => cborHead 0 b.val)).flatten ++ r) =
      some (v, r) := by
  induction v with
  | nil => intro r; rfl
  | cons b t ih =>
    intro r
    simp only [List.length_cons, List.map_cons, List.flatten_cons, List.append_assoc]
    unfold readByteElems
    rw [readHead_cborHead 0 b.val (by omega) (by have := b.isLt; omega) _]
    dsimp only
    rw [dif_pos b.isLt]
    rw [ih r]
    simp

theorem readArr_cborArr (v : List Byte) (r : List Byte) (hv : v.length < 2 ^ 64) :
    readArr (cborArr v ++ r) = some (v, r) := by
  unfold readArr cborArr
  rw [List.append_assoc, readHead_cborHead 4 _ (by omega) hv]
  exact readByteElems_encode v r

/-- The first byte of a CBOR head determines the major type: it lies in
[32 * major, 32 * major + 28). -/
theorem cborHead_first (m n : Nat) (hm : m < 8) :
    ∃ b t, cborHead m n = b :: t ∧ 32 * m ≤ b.val ∧ b.val < 32 * m + 28 := by
  unfold cborHead
  by_cases h1 : n < 24
  · rw [if_pos h1, ofNat256_eq_mk _ (by omega)]
    exact ⟨_, _, rfl, by simp only [Fin.val_mk]; omega, by simp only [Fin.val_mk]; omega⟩
  · rw [if_neg h1]
    by_cases h2 : n < 256
    · rw [if_pos h2, ofNat256_eq_mk _ (by omega)]
      exact ⟨_, _, rfl, by simp only [Fin.val_mk]; omega, by simp only [Fin.val_mk]; omega⟩
    · rw [if_neg h2]
      by_cases h3 : n < 65536
      · rw [if_pos h3, ofNat256_eq_mk _ (by omega)]
        exact ⟨_, _, rfl, by simp only [Fin.val_mk]; omega, by simp only [Fin.val_mk]; omega⟩
      · rw [if_neg h3]
        by_cases h4 : n < 4294967296
        · rw [if_pos h4, ofNat256_eq_mk _ (by omega)]
          exact ⟨_, _, rfl, by simp only [Fin.val_mk]; omega,
            by simp only [Fin.val_mk]; omega⟩
        · rw [if_neg h4, ofNat256_eq_mk _ (by omega)]
          exact ⟨_, _, rfl, by simp only [Fin.val_mk]; omega,
            by simp only [Fin.val_mk]; omega⟩

theorem readOptText_cborOptText (o : Option String) (r : List Byte)
    (h : match o with
      | none => True
      | some s => (utf8Encode s).length < 2 ^ 64) :
    readOptText (cborOptText o ++ r) = some (o, r) := by
  cases o with
  | none =>
    show readOptText ((⟨246, by omega⟩ : Byte) :: r) = some (none, r)
    unfold readOptText
    dsimp only
    rw [if_pos rfl]
  | some s =>
    obtain ⟨b, t, hbt, hlow, hhigh⟩ := cborHead_first 3 (utf8Encode s).length (by omega)
    have hc : cborOptText (some s) ++ r = b :: (t ++ (utf8Encode s ++ r)) := by
      show cborText s ++ r = _
      unfold cborText
      rw [hbt]
      simp [List.append_assoc]
    rw [hc]
    unfold readOptText
    dsimp only
    rw [if_neg (by omega)]
    rw [← List.cons_append, ← List.append_assoc, ← hbt]
    rw [show (cborHead 3 (utf8Encode s).length ++ utf8Encode s) ++ r = cborText s ++ r from
      by rw [cborText]]
    rw [readText_cborText s r h]
    rfl

theorem readOptArr_cborOptArr (o : Option (List Byte)) (r : List Byte)
    (h : match o with
      | none => True
      | some v => v.length < 2 ^ 64) :
    readOptArr (cborOptArr o ++ r) = some (o, r) := by
  cases o with
  | none =>
    show readOptArr ((⟨246, by omega⟩ : Byte) :: r) = some (none, r)
    unfold readOptArr
    dsimp only
    rw [if_pos rfl]
  | some v =>
    obtain ⟨b, t, hbt, hlow, hhigh⟩ := cborHead_first 4 v.length (by omega)
    have hc : cborOptArr (some v) ++ r =
        b :: (t ++ ((v.map (fun x => cborHead 0 x.val)).flatten ++ r)) := by
      show cborArr v ++ r = _
      unfold cborArr
      rw [hbt]
      simp [List.append_assoc]
    rw [hc]
    unfold readOptArr
    dsimp only
    rw [if_neg (by omega)]
    rw [← List.cons_append, ← List.append_assoc, ← hbt]
    rw [show (cborHead 4 v.length ++ (v.map (fun x => cborHead 0 x.val)).flatten) ++ r =
      cborArr v ++ r from by rw [cborArr]]
    rw [readArr_cborArr v r h]
    rfl

theorem frameTypeOfWire_wireStr (t : FrameType) : frameTypeOfWire t.wireStr = some t := by
  cases t <;> rfl

theorem wireStr_len (t : FrameType) : (utf8Encode t.wireStr).length < 2 ^ 64 := by
  cases t <;> decide

theorem decodeStep10_encode (ver : Nat) (t : FrameType) (fr dst : String) (sq tsv : Nat)
    (nn : String) (pl : List Byte) (hm : Option String) (sg : Option (List Byte))
    (hh : ∀ h, hm = some h → (utf8Encode h).length < 2 ^ 64)
    (hg : ∀ v, sg = some v → v.length < 2 ^ 64) :
    decodeStep10 ver t fr dst sq tsv nn pl
      (cborText "hmac" ++ (cborOptText hm ++ (cborText "sig" ++ cborOptArr sg))) =
      some ⟨ver, t, fr, dst, sq, tsv, nn, pl, hm, sg⟩ := by
  unfold decodeStep10
  rw [expectKey_self "hmac" _ (by decide), option_bind_some]
  rw [readOptText_cborOptText hm _
    (by cases hm with | none => trivial | some s => exact hh s rfl), option_bind_some]
  dsimp only
  rw [expectKey_self "sig" _ (by decide), option_bind_some]
  have hlast := readOptArr_cborOptArr sg []
    (by cases sg with | none => trivial | some v => exact hg v rfl)
  rw [List.append_nil] at hlast
  rw [hlast, option_bind_some]
  dsimp only
  rw [if_pos rfl]

theorem decodeStep7_encode (ver : Nat) (t : FrameType) (fr dst : String) (sq tsv : Nat)
    (nn : String) (pl : List Byte) (hm : Option String) (sg : Option (List Byte))
    (hn : (utf8Encode nn).length < 2 ^ 64) (hp : pl.length < 2 ^ 64)
    (hh : ∀ h, hm = some h → (utf8Encode h).length < 2 ^ 64)
    (hg : ∀ v, sg = some v → v.length < 2 ^ 64) :
    decodeStep7 ver t fr dst sq tsv
      (cborText "nonce" ++ (cborText nn ++ (cborText "payload" ++ (cborArr pl ++
        (cborText "hmac" ++ (cborOptText hm ++ (cborText "sig" ++ cborOptArr sg))))))) =
      some ⟨ver, t, fr, dst, sq, tsv, nn, pl, hm, sg⟩ := by
  unfold decodeStep7
  rw [expectKey_self "nonce" _ (by decide), option_bind_some]
  rw [readText_cborText nn _ hn, option_bind_some]
  dsimp only
  rw [expectKey_self "payload" _ (by decide), option_bind_some]
  rw [readArr_cborArr pl _ hp, option_bind_some]
  dsimp only
  exact decodeStep10_encode ver t fr dst sq tsv nn pl hm sg hh hg

theorem decodeStep5_encode (ver : Nat) (t : FrameType) (fr dst : String) (sq tsv : Nat)
    (nn : String) (pl : List Byte) (hm : Option String) (sg : Option (List Byte))
    (hsq : sq < 2 ^ 64) (htsv : tsv < 2 ^ 64)
    (hn : (utf8Encode nn).length < 2 ^ 64) (hp : pl.length < 2 ^ 64)
    (hh : ∀ h, hm = some h → (utf8Encode h).length < 2 ^ 64)
    (hg : ∀ v, sg = some v → v.length < 2 ^ 64) :
    decodeStep5 ver t fr dst
      (cborText "seq" ++ (cborHead 0 sq ++ (cborText "ts" ++ (cborHead 0 tsv ++
        (cborText "nonce" ++ (cborText nn ++ (cborText "payload" ++ (cborArr pl ++
          (cborText "hmac" ++ (cborOptText hm ++ (cborText "sig" ++ cborOptArr sg))))))))))) =
      some ⟨ver, t, fr, dst, sq, tsv, nn, pl, hm, sg⟩ := by
  unfold decodeStep5
  rw [expectKey_self "seq" _ (by decide), option_bind_some]
  rw [readUIntV_cborHead sq hsq _, option_bind_some]
  dsimp only
  rw [expectKey_self "ts" _ (by decide), option_bind_some]
  rw [readUIntV_cborHead tsv htsv _, option_bind_some]
  dsimp only
  exact decodeStep7_encode ver t fr dst sq tsv nn pl hm sg hn hp hh hg

theorem decodeStep3_encode (ver : Nat) (t : FrameType) (fr dst : String) (sq tsv : Nat)
    (nn : String) (pl : List Byte) (hm : Option String) (sg : Option (List Byte))
    (hfr : (utf8Encode fr).length < 2 ^ 64) (hdst : (utf8Encode dst).length < 2 ^ 64)
    (hsq : sq < 2 ^ 64) (htsv : tsv < 2 ^ 64)
    (hn : (utf8Encode nn).length < 2 ^ 64) (hp : pl.length < 2 ^ 64)
    (hh : ∀ h, hm = some h → (utf8Encode h).length < 2 ^ 64)
    (hg : ∀ v, sg = some v → v.length < 2 ^ 64) :
    decodeStep3 ver t
      (cborText "from" ++ (cborText fr ++ (cborText "to" ++ (cborText dst ++
        (cborText "seq" ++ (cborHead 0 sq ++ (cborText "ts" ++ (cborHead 0 tsv ++
          (cborText "nonce" ++ (cborText nn ++ (cborText "payload" ++ (cborArr pl ++
            (cborText "hmac" ++ (cborOptText hm ++ (cborText "sig" ++
              cborOptArr sg))))))))))))))) =
      some ⟨ver, t, fr, dst, sq, tsv, nn, pl, hm, sg⟩ := by
  unfold decodeStep3
  rw [expectKey_self "from" _ (by decide), option_bind_some]
  rw [readText_cborText fr _ hfr, option_bind_some]
  dsimp only
  rw [expectKey_self "to" _ (by decide), option_bind_some]
  rw [readText_cborText dst _ hdst, option_bind_some]
  dsimp only
  exact decodeStep5_encode ver t fr dst sq tsv nn pl hm sg hsq htsv hn hp hh hg

/-- Claim C7: for every well-formed frame — any version, frame type, from,
to, seq, ts, nonce, payload, and any combination of present or absent hmac
and sig — decoding its encoding succeeds and returns the same frame. -/
theorem frame_roundtrip (f : OpacusFrame) (hwf : WellFormed f) :
    decodeFrame (encodeFrame f) = some f := by
  obtain ⟨ver, t, fr, dst, sq, tsv, nn, pl, hm, sg⟩ := f
  obtain ⟨hver, hsq, htsv, hp, hfr, hdst, hn, hh, hg⟩ := hwf
  unfold encodeFrame decodeFrame
  dsimp only at hver hsq htsv hp hfr hdst hn hh hg ⊢
  simp only [List.append_assoc]
  rw [readHead_cborHead 5 10 (by omega) (by omega), option_bind_some]
  dsimp only
  rw [if_pos ⟨rfl, rfl⟩]
  rw [expectKey_self "version" _ (by decide), option_bind_some]
  rw [readUIntV_cborHead ver (by omega) _, option_bind_some]
  dsimp only
  rw [if_pos hver]
  rw [expectKey_self "type" _ (by decide), option_bind_some]
  rw [readText_cborText t.wireStr _ (wireStr_len t), option_bind_some]
  dsimp only
  rw [frameTypeOfWire_wireStr t, option_bind_some]
  exact decodeStep3_encode ver t fr dst sq tsv nn pl hm sg hfr hdst hsq htsv hn hp
    (fun h he => by subst he; exact hh) (fun v ve => by subst ve; exact hg)

/-- Witness for C7: the frame of the repository's own codec unit test, all
optional fields present. -/
theorem frame_roundtrip_witness :
    WellFormed ⟨1, .msg, "alice", "bob", 42, 1234567890, "test-nonce", [1, 2, 3, 4, 5],
      some "deadbeef", some [9, 8, 7, 6, 5]⟩ ∧
    decodeFrame (encodeFrame ⟨1, .msg, "alice", "bob", 42, 1234567890, "test-nonce",
      [1, 2, 3, 4, 5], some "deadbeef", some [9, 8, 7, 6, 5]⟩) =
      some ⟨1, .msg, "alice", "bob", 42, 1234567890, "test-nonce", [1, 2, 3, 4, 5],
        some "deadbeef", some [9, 8, 7, 6, 5]⟩ :=
  ⟨by constructor <;> first | decide | (constructor <;> first | decide |
      (constructor <;> first | decide | (constructor <;> first | decide |
        (constructor <;> first | decide | (constructor <;> first | decide |
          (constructor <;> first | decide | (constructor <;> decide))))))),
   frame_roundtrip _ (by constructor <;> first | decide | (constructor <;> first | decide |
      (constructor <;> first | decide | (constructor <;> first | decide |
        (constructor <;> first | decide | (constructor <;> first | decide |
          (constructor <;> first | decide | (constructor <;> decide))))))))⟩

end Opacus
